import Mathlib

/-!
Verification development for the looplace reaction-time task engines
(`src/ui/src/tasks/pvt/engine.rs`, `src/ui/src/tasks/nback/engine.rs`) and
their psychometric scoring (`src/ui/src/tasks/pvt/metrics.rs`,
`src/ui/src/tasks/nback/metrics.rs`).

Modelling conventions:
* Timestamps (`InstantStamp`) and millisecond durations are modelled as `ℚ`
  so that engine runs are computable and decidable; `timing::duration_ms`
  clamps at zero (`(end - start).max(0.0)`), which is modelled exactly.
* `f64` quantities inside the metrics calculators are modelled as `ℝ`
  (with `Real.sqrt` / `Real.log` for `f64::sqrt` / `f64::ln`); the
  `f32` `target_ratio` is modelled as `ℚ`.
* The seeded PRNG (`StdRng`) is abstracted as a draw stream `s : ℕ → ℕ`:
  draw `j` selects index `s j % pool_len` of the slice being sampled
  (this is exactly the information `SliceRandom::choose` / `shuffle` /
  `gen_range` extract from the generator).  Quantifying over all streams
  covers every seed, mode tag and run id.  The rejection loop in
  `random_letter` is given explicit fuel; exhausting the fuel models the
  (probability-zero) case of the Rust loop never terminating and makes
  generation return `none`.
* `u64` wrap-around (`wrapping_add`) is modelled by `% 2 ^ 64`; the `u32`
  `saturating_add` by `min _ (2 ^ 32 - 1)`.
* `binary_search(&idx).is_ok()` on the sorted `chosen_targets` vector is
  modelled by list membership, its specification on sorted lists.
-/

def U64_MOD : ℕ := 2 ^ 64

def U32_MAX : ℕ := 2 ^ 32 - 1

/-- `u32::saturating_add(1)` on `total_false_starts`. -/
def u32_saturating_succ (n : ℕ) : ℕ := min (n + 1) U32_MAX

/-- `timing::duration_ms`: millisecond difference clamped at zero. -/
def duration_ms (start stop : ℚ) : ℚ := max (stop - start) 0

/-- `f32::round` / `f64::round`: round half away from zero. -/
def rustRound (x : ℚ) : ℤ := if 0 ≤ x then ⌊x + 1 / 2⌋ else -⌊-x + 1 / 2⌋

/-! ### NBack sequence generation (`nback/engine.rs`) -/

def LETTER_POOL : List Char :=
  ['B', 'C', 'D', 'F', 'G', 'H', 'J', 'K', 'M', 'P', 'Q', 'R', 'S', 'T', 'V',
   'W', 'X', 'Y', 'Z']

/-- `RunMode`: practice or main phase. -/
inductive RunMode where
  | Practice
  | Main
deriving DecidableEq

/-- `NBackConfig` (the `u64` seed and the mode tag only feed the PRNG, which
is abstracted by the draw stream, so they carry no further structure here). -/
structure NBackConfig where
  total_trials : ℕ
  practice_trials : ℕ
  target_ratio : ℚ
  stimulus_ms : ℕ
  interstimulus_interval_ms : ℕ
  lead_in_ms : ℕ
  response_window_ms : ℕ
  seed : ℕ
deriving DecidableEq

/-- Trial count for the requested mode (`generate_trials`, first match). -/
def run_length (cfg : NBackConfig) (mode : RunMode) : ℕ :=
  match mode with
  | .Practice => cfg.practice_trials
  | .Main => cfg.total_trials

/-- `random_letter`: rejection-sample a letter from `LETTER_POOL`, skipping
the disallowed letter.  `LETTER_POOL.choose(rng)` is modelled as indexing by
`s j % LETTER_POOL.length`; `unwrap_or('A')` is the `getD` default.  The
`loop` gets explicit fuel; returns the letter and the next stream position. -/
def random_letter : ℕ → (ℕ → ℕ) → ℕ → Option Char → Option (Char × ℕ)
  | 0, _, _, _ => none
  | fuel + 1, s, j, disallow =>
      let letter := LETTER_POOL.getD (s j % LETTER_POOL.length) 'A'
      if disallow = some letter then random_letter fuel s (j + 1) disallow
      else some (letter, j + 1)

/-- Target-quota computation inside `generate_trials`: round the ratio times
the candidate count, then clamp (to `1` from below whenever candidates exist,
to the candidate count from above), then `.max(0) as usize`. -/
def target_quota (length : ℕ) (ratio : ℚ) : ℕ :=
  let max_targets := length - 2
  let q0 : ℤ := rustRound ((max_targets : ℚ) * ratio)
  let q1 : ℤ :=
    if max_targets = 0 then 0
    else
      let q2 := if q0 ≤ 0 then 1 else q0
      if (max_targets : ℤ) < q2 then (max_targets : ℤ) else q2
  q1.toNat

/-- `Vec::swap` on a list of candidate indices. -/
def list_swap (l : List ℕ) (a b : ℕ) : List ℕ :=
  (l.set a (l.getD b 0)).set b (l.getD a 0)

/-- `SliceRandom::shuffle` (Fisher–Yates): for `i` from `len - 1` down to `1`
swap position `i` with position `gen_range(0..=i)`, one stream draw each. -/
def fy_aux (s : ℕ → ℕ) : ℕ → ℕ → List ℕ → List ℕ
  | _, 0, l => l
  | j, i + 1, l => fy_aux s (j + 1) i (list_swap l (i + 1) (s j % (i + 2)))

def fisher_yates (s : ℕ → ℕ) (j : ℕ) (l : List ℕ) : List ℕ :=
  fy_aux s j (l.length - 1) l

/-- The sorted list of chosen target indices (`generate_trials`, middle
section): shuffle the candidate indices `[2, length)`, truncate to the quota,
sort ascending (`sort_unstable`; on `ℕ` any comparison sort yields the same
list, modelled by insertion sort).  `j` is the current stream position. -/
def chosen_targets (s : ℕ → ℕ) (j : ℕ) (length : ℕ) (ratio : ℚ) : List ℕ :=
  List.insertionSort (· ≤ ·)
    ((fisher_yates s j (List.range' 2 (length - 2))).take
      (target_quota length ratio))

/-- First loop of `generate_trials`: positions `0` and `1` get unconstrained
random letters, later positions a placeholder `' '`. -/
def initial_letters (fuel : ℕ) (s : ℕ → ℕ) (length : ℕ) :
    Option (List Char × ℕ) :=
  match length with
  | 0 => some ([], 0)
  | 1 => (random_letter fuel s 0 none).map (fun p => ([p.1], p.2))
  | n + 2 => do
      let (c0, j0) ← random_letter fuel s 0 none
      let (c1, j1) ← random_letter fuel s j0 none
      some (c0 :: c1 :: List.replicate n ' ', j1)

/-- Fill loop of `generate_trials` for indices `idx ∈ [2, length)`: a chosen
target index copies the letter two back, any other index draws a random
letter excluding the letter two back.  `r` is the number of remaining
positions, `j` the stream position. -/
def fill_loop (fuel : ℕ) (s : ℕ → ℕ) (chosen : List ℕ) :
    ℕ → ℕ → ℕ → List Char → Option (List Char)
  | 0, _, _, letters => some letters
  | r + 1, idx, j, letters =>
      if idx ∈ chosen then
        fill_loop fuel s chosen r (idx + 1) j
          (letters.set idx (letters.getD (idx - 2) ' '))
      else
        match random_letter fuel s j (some (letters.getD (idx - 2) ' ')) with
        | none => none
        | some (c, j2) =>
            fill_loop fuel s chosen r (idx + 1) j2 (letters.set idx c)

/-- `TrialResponse` for the 2-back task. -/
structure TrialResponse where
  timestamp : ℚ
  rt_ms : ℚ
deriving DecidableEq

/-- NBack `TrialOutcome`. -/
inductive NBackOutcome where
  | Pending
  | Hit (rt_ms : ℚ)
  | Miss
  | FalseAlarm (rt_ms : ℚ)
  | CorrectRejection
deriving DecidableEq

/-- `NBackTrial`. -/
structure NBackTrial where
  index : ℕ
  letter : Char
  is_target : Bool
  is_lure : Bool
  presented_at : Option ℚ
  response : Option TrialResponse
  outcome : NBackOutcome
deriving DecidableEq

def NBackTrial.new (index : ℕ) (letter : Char) (is_target is_lure : Bool) :
    NBackTrial :=
  { index := index, letter := letter, is_target := is_target,
    is_lure := is_lure, presented_at := none, response := none,
    outcome := .Pending }

def nbackTrialDflt : NBackTrial := NBackTrial.new 0 ' ' false false

/-- Final loop of `generate_trials`: derive `is_target` / `is_lure` per trial
purely by re-comparing letters. -/
def chars_to_trials (letters : List Char) : List NBackTrial :=
  (List.range letters.length).map (fun idx =>
    let letter := letters.getD idx ' '
    NBackTrial.new idx letter
      (decide (2 ≤ idx) && decide (letter = letters.getD (idx - 2) ' '))
      (decide (1 ≤ idx) && decide (letter = letters.getD (idx - 1) ' ')))

/-- `NBackEngine::generate_trials`.  Returns `none` only when the rejection
loop fuel is exhausted (modelling nontermination of the source loop). -/
def generate_trials (fuel : ℕ) (s : ℕ → ℕ) (cfg : NBackConfig)
    (mode : RunMode) : Option (List NBackTrial) :=
  let length := run_length cfg mode
  if length = 0 then some []
  else do
    let (init, j1) ← initial_letters fuel s length
    let chosen := chosen_targets s j1 length cfg.target_ratio
    let j2 := j1 + (length - 2 - 1)
    let letters ← fill_loop fuel s chosen (length - 2) 2 j2 init
    some (chars_to_trials letters)

/-! ### NBack engine state machine (`nback/engine.rs`) -/

inductive NBackEngineState where
  | Idle
  | Waiting (mode : RunMode) (trial_index : ℕ)
  | StimulusActive (mode : RunMode) (trial_index : ℕ)
  | Completed (mode : RunMode)
  | Aborted
deriving DecidableEq

inductive ResponseKind where
  | Hit
  | FalseAlarm
deriving DecidableEq

structure ScheduledStimulus where
  run_id : ℕ
  trial_index : ℕ
  wait_ms : ℕ
deriving DecidableEq

structure ScheduledAdvance where
  run_id : ℕ
  trial_index : ℕ
  wait_ms : ℕ
deriving DecidableEq

structure TrialSchedule where
  stimulus : ScheduledStimulus
  advance : ScheduledAdvance
deriving DecidableEq

inductive NBackAdvanceOutcome where
  | Next (schedule : TrialSchedule)
  | Completed (mode : RunMode)
  | Ignored
deriving DecidableEq

inductive NBackResponseOutcome where
  | Recorded (kind : ResponseKind)
  | Ignored
deriving DecidableEq

/-- `NBackEngine`.  The two cached-metrics slots store the trial list the
metrics were computed from (`NBackMetrics::from_trials` is a pure function of
it), keeping the engine state decidable. -/
structure NBackEngine where
  config : NBackConfig
  state : NBackEngineState
  run_id : ℕ
  trials : List NBackTrial
  last_practice_trials : Option (List NBackTrial)
  last_main_trials : Option (List NBackTrial)
deriving DecidableEq

def NBackEngine.new (config : NBackConfig) : NBackEngine :=
  { config := config, state := .Idle, run_id := 0, trials := [],
    last_practice_trials := none, last_main_trials := none }

/-- `NBackEngine::schedule_current`. -/
def NBackEngine.schedule_current (e : NBackEngine) (trial_index : ℕ) :
    TrialSchedule :=
  { stimulus :=
      { run_id := e.run_id, trial_index := trial_index,
        wait_ms :=
          if trial_index = 0 then e.config.lead_in_ms
          else e.config.interstimulus_interval_ms },
    advance :=
      { run_id := e.run_id, trial_index := trial_index,
        wait_ms := e.config.response_window_ms } }

/-- `NBackEngine::start`.  Outer `Option`: `none` models generation-loop
nontermination; inner `Option` is the source return value (`None` while a
run is already active). -/
def NBackEngine.start (e : NBackEngine) (fuel : ℕ) (s : ℕ → ℕ)
    (mode : RunMode) : Option (NBackEngine × Option TrialSchedule) :=
  match e.state with
  | .Waiting _ _ => some (e, none)
  | .StimulusActive _ _ => some (e, none)
  | _ =>
      let rid := (e.run_id + 1) % U64_MOD
      (generate_trials fuel s e.config mode).map (fun ts =>
        let e2 : NBackEngine :=
          { e with run_id := rid, trials := ts, state := .Waiting mode 0 }
        (e2, some (e2.schedule_current 0)))

/-- `NBackEngine::abort`. -/
def NBackEngine.abort (e : NBackEngine) : NBackEngine :=
  { e with state := .Aborted }

/-- `NBackEngine::mark_stimulus_on`. -/
def NBackEngine.mark_stimulus_on (e : NBackEngine) (trial_index : ℕ)
    (timestamp : ℚ) : NBackEngine × Bool :=
  match e.state with
  | .Waiting mode idx =>
      if idx = trial_index then
        match e.trials.get? trial_index with
        | some trial =>
            ({ e with
                trials :=
                  e.trials.set trial_index
                    { trial with presented_at := some timestamp },
                state := .StimulusActive mode trial_index }, true)
        | none => (e, false)
      else (e, false)
  | _ => (e, false)

/-- `NBackEngine::register_response`. -/
def NBackEngine.register_response (e : NBackEngine) (timestamp : ℚ) :
    NBackEngine × NBackResponseOutcome :=
  match e.state with
  | .StimulusActive _ trial_index =>
      match e.trials.get? trial_index with
      | some trial =>
          match trial.response, trial.presented_at with
          | none, some onset =>
              let rt_ms := duration_ms onset timestamp
              let trial2 :=
                { trial with
                    response := some { timestamp := timestamp, rt_ms := rt_ms },
                    outcome :=
                      if trial.is_target then .Hit rt_ms
                      else .FalseAlarm rt_ms }
              ({ e with trials := e.trials.set trial_index trial2 },
               .Recorded (if trial.is_target then .Hit else .FalseAlarm))
          | _, _ => (e, .Ignored)
      | none => (e, .Ignored)
  | _ => (e, .Ignored)

/-- Shared body of `NBackEngine::advance` once the state guard has matched
the trial index (the `Waiting` and `StimulusActive` arms bind the same
code path in the source `match`). -/
def NBackEngine.advance_body (e : NBackEngine) (mode : RunMode) (idx : ℕ) :
    NBackEngine × NBackAdvanceOutcome :=
    let trials2 :=
      match e.trials.get? idx with
      | some trial =>
          if trial.outcome = .Pending then
            e.trials.set idx
              { trial with
                  outcome :=
                    if trial.is_target then .Miss else .CorrectRejection }
          else e.trials
      | none => e.trials
    let next_index := idx + 1
    if e.trials.length ≤ next_index then
      let e2 : NBackEngine :=
        match mode with
        | .Practice =>
            { e with
                trials := trials2,
                state := .Completed mode,
                last_practice_trials := some trials2 }
        | .Main =>
            { e with
                trials := trials2,
                state := .Completed mode,
                last_main_trials := some trials2 }
      (e2, .Completed mode)
    else
      ({ e with trials := trials2, state := .Waiting mode next_index },
       .Next ({ e with trials := trials2 }.schedule_current next_index))

/-- `NBackEngine::advance`. -/
def NBackEngine.advance (e : NBackEngine) (trial_index : ℕ) :
    NBackEngine × NBackAdvanceOutcome :=
  match e.state with
  | .StimulusActive mode idx =>
      if idx = trial_index then e.advance_body mode idx else (e, .Ignored)
  | .Waiting mode idx =>
      if idx = trial_index then e.advance_body mode idx else (e, .Ignored)
  | _ => (e, .Ignored)

/-- `NBackEvent::StimulusReady` handler (`nback/view.rs`): act only when the
scheduled event's `run_id` matches the live one. -/
def NBackEngine.handle_stimulus_ready (e : NBackEngine) (run_id trial_index : ℕ)
    (timestamp : ℚ) : NBackEngine × Bool :=
  if e.run_id = run_id then e.mark_stimulus_on trial_index timestamp
  else (e, false)

/-- `NBackEvent::Advance` handler (`nback/view.rs`). -/
def NBackEngine.handle_advance (e : NBackEngine) (run_id trial_index : ℕ) :
    NBackEngine × NBackAdvanceOutcome :=
  if e.run_id = run_id then e.advance trial_index else (e, .Ignored)

/-! ### PVT engine (`pvt/engine.rs`) -/

def FALSE_START_THRESHOLD_MS : ℚ := 100

structure PvtConfig where
  target_trials : ℕ
  min_iti_ms : ℕ
  max_iti_ms : ℕ
  max_response_ms : ℕ
  min_reaction_trials : ℕ
deriving DecidableEq

inductive PvtOutcome where
  | Pending
  | Reaction (rt_ms : ℚ)
  | Lapse
  | FalseStart
deriving DecidableEq

def PvtOutcome.isReaction : PvtOutcome → Bool
  | .Reaction _ => true
  | _ => false

structure PvtTrial where
  index : ℕ
  iti_ms : ℕ
  stimulus_onset : Option ℚ
  onset_since_start_ms : Option ℚ
  response_at : Option ℚ
  outcome : PvtOutcome
deriving DecidableEq

def PvtTrial.new (index : ℕ) (iti_ms : ℕ) : PvtTrial :=
  { index := index, iti_ms := iti_ms, stimulus_onset := none,
    onset_since_start_ms := none, response_at := none, outcome := .Pending }

def pvtTrialDflt : PvtTrial := PvtTrial.new 0 0

def PvtTrial.is_completed (t : PvtTrial) : Bool :=
  match t.outcome with
  | .Pending => false
  | _ => true

inductive PvtEngineState where
  | Idle
  | Waiting (trial_index : ℕ)
  | StimulusActive (trial_index : ℕ)
  | Completed
  | Aborted
deriving DecidableEq

inductive PvtResponseOutcome where
  | NextScheduled (schedule : ScheduledStimulus)
  | RunCompleted
  | Ignored
deriving DecidableEq

structure PvtEngine where
  config : PvtConfig
  state : PvtEngineState
  trials : List PvtTrial
  run_id : ℕ
  run_started_at : Option ℚ
  run_finished_at : Option ℚ
  total_false_starts : ℕ
deriving DecidableEq

def PvtEngine.new (config : PvtConfig) : PvtEngine :=
  { config := config, state := .Idle, trials := [], run_id := 0,
    run_started_at := none, run_finished_at := none, total_false_starts := 0 }

/-- `PvtEngine::reset`. -/
def PvtEngine.reset (e : PvtEngine) : PvtEngine :=
  { e with
      state := .Idle,
      trials := [],
      run_started_at := none,
      run_finished_at := none,
      total_false_starts := 0 }

/-- `rand::thread_rng().gen_range(min..=max)`: `draw` is the raw random
value supplied by the environment, mapped into the inclusive range. -/
def random_iti (cfg : PvtConfig) (draw : ℕ) : ℕ :=
  cfg.min_iti_ms + draw % (cfg.max_iti_ms - cfg.min_iti_ms + 1)

def PvtEngine.completed_trial_count (e : PvtEngine) : ℕ :=
  (e.trials.filter (fun t => t.is_completed)).length

/-- `PvtEngine::schedule_next`. -/
def PvtEngine.schedule_next (e : PvtEngine) (draw : ℕ) (now : ℚ) :
    PvtEngine × PvtResponseOutcome :=
  if e.config.target_trials ≤ e.completed_trial_count then
    ({ e with state := .Completed, run_finished_at := some now },
     .RunCompleted)
  else
    let next_index := e.trials.length
    let iti := random_iti e.config draw
    ({ e with
        trials := e.trials ++ [PvtTrial.new next_index iti],
        state := .Waiting next_index },
     .NextScheduled
       { run_id := e.run_id, trial_index := next_index, wait_ms := iti })

/-- `PvtEngine::start` (`now` models `timing::now()`, `draw` the ITI draw). -/
def PvtEngine.start (e : PvtEngine) (now : ℚ) (draw : ℕ) :
    PvtEngine × Option ScheduledStimulus :=
  match e.state with
  | .Idle | .Completed | .Aborted =>
      let e1 := e.reset
      let rid := (e1.run_id + 1) % U64_MOD
      let iti := random_iti e.config draw
      ({ e1 with
          run_id := rid,
          run_started_at := some now,
          trials := [PvtTrial.new 0 iti],
          state := .Waiting 0 },
       some { run_id := rid, trial_index := 0, wait_ms := iti })
  | _ => (e, none)

/-- `PvtEngine::abort`. -/
def PvtEngine.abort (e : PvtEngine) (now : ℚ) : PvtEngine :=
  { e with state := .Aborted, run_finished_at := some now }

/-- `PvtEngine::mark_stimulus_on`. -/
def PvtEngine.mark_stimulus_on (e : PvtEngine) (trial_index : ℕ)
    (timestamp : ℚ) : PvtEngine × Bool :=
  match e.state with
  | .Waiting idx =>
      if idx = trial_index then
        match e.run_started_at with
        | some run_start =>
            match e.trials.get? trial_index with
            | some trial =>
                ({ e with
                    trials :=
                      e.trials.set trial_index
                        { trial with
                            stimulus_onset := some timestamp,
                            onset_since_start_ms :=
                              some (duration_ms run_start timestamp) },
                    state := .StimulusActive trial_index }, true)
            | none => (e, false)
        | none => (e, false)
      else (e, false)
  | _ => (e, false)

/-- `PvtEngine::register_response` (`draw` feeds `schedule_next`'s ITI draw,
`now` its completion timestamp). -/
def PvtEngine.register_response (e : PvtEngine) (draw : ℕ) (now : ℚ)
    (timestamp : ℚ) : PvtEngine × PvtResponseOutcome :=
  match e.state with
  | .StimulusActive trial_index =>
      match e.trials.get? trial_index with
      | some trial =>
          match trial.stimulus_onset with
          | some onset =>
              let rt_ms := duration_ms onset timestamp
              let trial2 :=
                { trial with
                    response_at := some timestamp,
                    outcome :=
                      if rt_ms < FALSE_START_THRESHOLD_MS then .FalseStart
                      else .Reaction rt_ms }
              let e2 :=
                { e with
                    trials := e.trials.set trial_index trial2,
                    total_false_starts :=
                      if rt_ms < FALSE_START_THRESHOLD_MS then
                        u32_saturating_succ e.total_false_starts
                      else e.total_false_starts }
              e2.schedule_next draw now
          | none => (e, .Ignored)
      | none => (e, .Ignored)
  | .Waiting trial_index =>
      let e1 :=
        match e.trials.get? trial_index with
        | some trial =>
            { e with
                trials :=
                  e.trials.set trial_index
                    { trial with
                        outcome := .FalseStart,
                        response_at := some timestamp } }
        | none => e
      let e2 :=
        { e1 with
            total_false_starts := u32_saturating_succ e1.total_false_starts }
      e2.schedule_next draw now
  | _ => (e, .Ignored)

/-- `PvtEngine::register_timeout`. -/
def PvtEngine.register_timeout (e : PvtEngine) (trial_index : ℕ) (draw : ℕ)
    (now : ℚ) : PvtEngine × PvtResponseOutcome :=
  match e.state with
  | .StimulusActive idx =>
      if idx = trial_index then
        let e1 :=
          match e.trials.get? trial_index with
          | some trial =>
              { e with
                  trials :=
                    e.trials.set trial_index { trial with outcome := .Lapse } }
          | none => e
        e1.schedule_next draw now
      else (e, .Ignored)
  | _ => (e, .Ignored)

/-- `PvtEvent::StimulusReady` handler (`pvt/view.rs`): ignore events from a
stale `run_id`; on success return the response window to schedule. -/
def PvtEngine.handle_stimulus_ready (e : PvtEngine) (run_id trial_index : ℕ)
    (now : ℚ) : PvtEngine × Option ℕ :=
  if e.run_id ≠ run_id then (e, none)
  else
    let p := e.mark_stimulus_on trial_index now
    if p.2 then (p.1, some p.1.config.max_response_ms) else (p.1, none)

/-- `PvtEvent::Timeout` handler (`pvt/view.rs`). -/
def PvtEngine.handle_timeout (e : PvtEngine) (run_id trial_index : ℕ)
    (draw : ℕ) (now : ℚ) : PvtEngine × PvtResponseOutcome :=
  if e.run_id ≠ run_id then (e, .Ignored)
  else e.register_timeout trial_index draw now

/-! ### Operation syntax and reachability (for the retirement invariant) -/

/-- One externally triggerable PVT engine operation, with its oracle inputs
(timestamps and the random ITI draw). -/
inductive PvtOp where
  | start (now : ℚ) (draw : ℕ)
  | mark_stimulus_on (trial_index : ℕ) (timestamp : ℚ)
  | register_response (draw : ℕ) (now timestamp : ℚ)
  | register_timeout (trial_index : ℕ) (draw : ℕ) (now : ℚ)
  | abort (now : ℚ)

def PvtOp.isStart : PvtOp → Bool
  | .start _ _ => true
  | _ => false

def PvtOp.applyE : PvtOp → PvtEngine → PvtEngine
  | .start now draw, e => (e.start now draw).1
  | .mark_stimulus_on i ts, e => (e.mark_stimulus_on i ts).1
  | .register_response draw now ts, e => (e.register_response draw now ts).1
  | .register_timeout i draw now, e => (e.register_timeout i draw now).1
  | .abort now, e => e.abort now

inductive PvtReachable : PvtEngine → Prop
  | init (cfg : PvtConfig) : PvtReachable (PvtEngine.new cfg)
  | step (op : PvtOp) {e : PvtEngine} :
      PvtReachable e → PvtReachable (op.applyE e)

/-- One externally triggerable NBack engine operation. -/
inductive NBackOp where
  | start (fuel : ℕ) (s : ℕ → ℕ) (mode : RunMode)
  | mark_stimulus_on (trial_index : ℕ) (timestamp : ℚ)
  | register_response (timestamp : ℚ)
  | advance (trial_index : ℕ)
  | abort

def NBackOp.isStart : NBackOp → Bool
  | .start _ _ _ => true
  | _ => false

def NBackOp.applyE : NBackOp → NBackEngine → NBackEngine
  | .start fuel s mode, e =>
      match e.start fuel s mode with
      | some (e2, _) => e2
      | none => e
  | .mark_stimulus_on i ts, e => (e.mark_stimulus_on i ts).1
  | .register_response ts, e => (e.register_response ts).1
  | .advance i, e => (e.advance i).1
  | .abort, e => e.abort

inductive NBackReachable : NBackEngine → Prop
  | init (cfg : NBackConfig) : NBackReachable (NBackEngine.new cfg)
  | step (op : NBackOp) {e : NBackEngine} :
      NBackReachable e → NBackReachable (op.applyE e)

/-! ### Statistics utilities (`pvt/metrics.rs`, `nback/metrics.rs`) -/

noncomputable def mean (data : List ℝ) : ℝ :=
  if data.isEmpty then 0 else data.sum / (data.length : ℝ)

noncomputable def std_dev (data : List ℝ) (mean : ℝ) : ℝ :=
  if data.length < 2 then 0
  else
    Real.sqrt
      ((data.map (fun value => (value - mean) * (value - mean))).sum /
        ((data.length : ℝ) - 1))

/-- `percentile` (identical helper in `pvt/metrics.rs` and
`nback/metrics.rs`): rank interpolation on a sorted list.  `as usize` on the
non-negative rank is `Int.toNat`. -/
noncomputable def percentile (sorted : List ℝ) (pct : ℝ) : ℝ :=
  if sorted.isEmpty then 0
  else if sorted.length = 1 then sorted.getD 0 0
  else
    let clamped_pct := min (max pct 0) 1
    let rank := clamped_pct * ((sorted.length : ℝ) - 1)
    let lower := (⌊rank⌋).toNat
    let upper := (⌈rank⌉).toNat
    if lower = upper then sorted.getD lower 0
    else
      let weight := rank - (lower : ℝ)
      sorted.getD lower 0 + (sorted.getD upper 0 - sorted.getD lower 0) * weight

/-- Modelled from the spec's wording of the percentile rule: "rank =
f×(n−1), linearly interpolate between the floor and ceil ranked values". -/
noncomputable def percentileSpec (sorted : List ℝ) (f : ℝ) : ℝ :=
  let rank := f * ((sorted.length : ℝ) - 1)
  let lower := (⌊rank⌋).toNat
  let upper := (⌈rank⌉).toNat
  sorted.getD lower 0 +
    (sorted.getD upper 0 - sorted.getD lower 0) * (rank - (lower : ℝ))

noncomputable def f64_epsilon : ℝ := 1 / 2 ^ 52

/-- `slope_minutes`: ordinary least-squares slope of `ys` against `xs`. -/
noncomputable def slope_minutes (xs_minutes ys_ms : List ℝ) : ℝ :=
  if xs_minutes.length < 2 ∨ ys_ms.length < 2 ∨
      xs_minutes.length ≠ ys_ms.length then 0
  else
    let n : ℝ := (xs_minutes.length : ℝ)
    let sum_x := xs_minutes.sum
    let sum_y := ys_ms.sum
    let sum_xy := ((xs_minutes.zip ys_ms).map (fun p => p.1 * p.2)).sum
    let sum_x2 := (xs_minutes.map (fun x => x * x)).sum
    let denominator := n * sum_x2 - sum_x * sum_x
    if |denominator| < f64_epsilon then 0
    else (n * sum_xy - sum_x * sum_y) / denominator

noncomputable def ms_to_minutes (ms : ℝ) : ℝ := ms / 1000 / 60

/-! ### PVT metrics (`pvt/metrics.rs`) -/

structure PvtMetrics where
  total_trials : ℕ
  reacted_trials : ℕ
  median_rt_ms : ℝ
  mean_rt_ms : ℝ
  sd_rt_ms : ℝ
  p10_rt_ms : ℝ
  p90_rt_ms : ℝ
  lapses_ge_500ms : ℕ
  minor_lapses_355_499ms : ℕ
  false_starts : ℕ
  time_on_task_slope_ms_per_min : ℝ
  meets_min_trial_requirement : Bool

/-- `PvtMetrics::from_trials`.  The single source loop collecting reaction
times, reaction offsets and lapse tallies is modelled by one `filterMap` /
`filter` per collection (same traversal order, same elements). -/
noncomputable def PvtMetrics.from_trials (trials : List PvtTrial)
    (false_starts : ℕ) (min_required : ℕ) : PvtMetrics :=
  let total_trials := (trials.filter (fun t => t.is_completed)).length
  let reaction_times : List ℝ :=
    trials.filterMap (fun t =>
      match t.outcome with
      | .Reaction rt => some ((rt : ℚ) : ℝ)
      | _ => none)
  let reaction_offsets : List ℝ :=
    trials.filterMap (fun t =>
      match t.outcome with
      | .Reaction _ =>
          some ((t.onset_since_start_ms.map
            (fun m => ms_to_minutes ((m : ℚ) : ℝ))).getD 0)
      | _ => none)
  let lapses_ge_500ms :=
    (trials.filter (fun t =>
      match t.outcome with
      | .Reaction rt => decide ((500 : ℚ) ≤ rt)
      | .Lapse => true
      | _ => false)).length
  let minor_lapses :=
    (trials.filter (fun t =>
      match t.outcome with
      | .Reaction rt => decide ((355 : ℚ) ≤ rt ∧ rt < 500)
      | _ => false)).length
  if reaction_times.isEmpty then
    { total_trials := total_trials, reacted_trials := 0, median_rt_ms := 0,
      mean_rt_ms := 0, sd_rt_ms := 0, p10_rt_ms := 0, p90_rt_ms := 0,
      lapses_ge_500ms := 0, minor_lapses_355_499ms := 0,
      false_starts := false_starts, time_on_task_slope_ms_per_min := 0,
      meets_min_trial_requirement := false }
  else
    let reacted_trials := reaction_times.length
    let sorted_times := List.insertionSort (· ≤ ·) reaction_times
    let mean_v := mean reaction_times
    let sd := std_dev reaction_times mean_v
    let median := percentile sorted_times 0.5
    let p10 := percentile sorted_times 0.10
    let p90 := percentile sorted_times 0.90
    let slope := slope_minutes reaction_offsets reaction_times
    { total_trials := total_trials, reacted_trials := reacted_trials,
      median_rt_ms := median, mean_rt_ms := mean_v, sd_rt_ms := sd,
      p10_rt_ms := p10, p90_rt_ms := p90, lapses_ge_500ms := lapses_ge_500ms,
      minor_lapses_355_499ms := minor_lapses, false_starts := false_starts,
      time_on_task_slope_ms_per_min := slope,
      meets_min_trial_requirement := min_required ≤ reacted_trials }

/-! ### NBack signal-detection indices (`nback/metrics.rs`) -/

/-- Central-region rational approximant of Acklam's inverse normal CDF. -/
noncomputable def acklamCentral (p : ℝ) : ℝ :=
  let q := p - 0.5
  let r := q * q
  ((((((-3.969683028665376e1) * r + 2.209460984245205e2) * r +
      (-2.759285104469687e2)) * r + 1.38357751867269e2) * r +
      (-3.066479806614716e1)) * r + 2.506628277459239) * q /
    ((((((-5.447609879822406e1) * r + 1.615858368580409e2) * r +
        (-1.556989798598866e2)) * r + 6.680131188771972e1) * r +
        (-1.328068155288572e1)) * r + 1.0)

/-- Tail-region rational approximant of Acklam's inverse normal CDF, in the
variable `q = sqrt(-2 ln p)`. -/
noncomputable def acklamTail (q : ℝ) : ℝ :=
  ((((((-7.784894002430293e-3) * q + (-3.223964580411365e-1)) * q +
      (-2.400758277161838)) * q + (-2.549732539343734)) * q +
      4.374664141464968) * q + 2.938163982698783) /
    ((((7.784695709041462e-3 * q + 3.224671290700398e-1) * q +
        2.445134137142996) * q + 3.754408661907416) * q + 1.0)

def P_LOW : ℝ := 0.02425

/-- `inverse_normal_cdf`: Acklam's three-region rational approximation,
`⊥` / `⊤` (that is `-∞` / `+∞`) for `p ≤ 0` / `p ≥ 1`. -/
noncomputable def inverse_normal_cdf (p : ℝ) : EReal :=
  if p ≤ 0 then ⊥
  else if 1 ≤ p then ⊤
  else if p < P_LOW then
    ((acklamTail (Real.sqrt (-2 * Real.log p)) : ℝ) : EReal)
  else if 1 - P_LOW < p then
    ((-acklamTail (Real.sqrt (-2 * Real.log (1 - p))) : ℝ) : EReal)
  else ((acklamCentral p : ℝ) : EReal)

/-- `f64::clamp(lo, hi)`. -/
noncomputable def f64_clamp (x lo hi : ℝ) : ℝ := min (max x lo) hi

/-- `signal_detection_indices`: `(d_prime, criterion)`. -/
noncomputable def signal_detection_indices (hits false_alarms : ℕ)
    (target_trials non_target_trials : ℕ) : EReal × EReal :=
  let hit_trials : ℝ := ((max target_trials 1 : ℕ) : ℝ)
  let nt_trials : ℝ := ((max non_target_trials 1 : ℕ) : ℝ)
  let adjusted_hit_rate := ((hits : ℝ) + 0.5) / (hit_trials + 1.0)
  let adjusted_fa_rate := ((false_alarms : ℝ) + 0.5) / (nt_trials + 1.0)
  let z_hit := inverse_normal_cdf (f64_clamp adjusted_hit_rate 1e-6 (1 - 1e-6))
  let z_fa := inverse_normal_cdf (f64_clamp adjusted_fa_rate 1e-6 (1 - 1e-6))
  (z_hit - z_fa, (((-0.5 : ℝ) : EReal)) * (z_hit + z_fa))

/-- Modelled from the spec's wording of the signal-detection indices:
`adjusted_hit = (hits + 0.5)/(targets + 1)`, `adjusted_fa =
(false_alarms + 0.5)/(non_targets + 1)`, each clamped, then
`d′ = Φ⁻¹(adjusted_hit) − Φ⁻¹(adjusted_fa)` and
`c = −0.5 × (Φ⁻¹(adjusted_hit) + Φ⁻¹(adjusted_fa))`. -/
noncomputable def signal_detection_indices_spec (hits false_alarms : ℕ)
    (target_trials non_target_trials : ℕ) : EReal × EReal :=
  let adjusted_hit_rate := ((hits : ℝ) + 0.5) / ((target_trials : ℝ) + 1.0)
  let adjusted_fa_rate :=
    ((false_alarms : ℝ) + 0.5) / ((non_target_trials : ℝ) + 1.0)
  let z_hit := inverse_normal_cdf (f64_clamp adjusted_hit_rate 1e-6 (1 - 1e-6))
  let z_fa := inverse_normal_cdf (f64_clamp adjusted_fa_rate 1e-6 (1 - 1e-6))
  (z_hit - z_fa, (((-0.5 : ℝ) : EReal)) * (z_hit + z_fa))

/-- Inductive invariant of the PVT engine: every trial from the current
index on is still pending. -/
def PvtInv (e : PvtEngine) : Prop :=
  ∀ i j, (e.state = .Waiting i ∨ e.state = .StimulusActive i) → i ≤ j →
    (e.trials.getD j pvtTrialDflt).outcome = .Pending

/-- Inductive invariant of the NBack engine: trials beyond the current index
are pending; in `Waiting` the current trial is pending too; in
`StimulusActive` the current trial is pending unless a response has been
recorded together with its outcome. -/
def NBackInv (e : NBackEngine) : Prop :=
  ∀ mode i,
    (e.state = .Waiting mode i →
      ∀ j, i ≤ j → (e.trials.getD j nbackTrialDflt).outcome = .Pending) ∧
    (e.state = .StimulusActive mode i →
      (∀ j, i < j → (e.trials.getD j nbackTrialDflt).outcome = .Pending) ∧
      ((e.trials.getD i nbackTrialDflt).outcome = .Pending ∨
        ((e.trials.getD i nbackTrialDflt).response).isSome = true))

/-! ### Concrete fixtures used by witness theorems -/

def sampleNBackConfig : NBackConfig :=
  { total_trials := 4, practice_trials := 4, target_ratio := 1 / 2,
    stimulus_ms := 500, interstimulus_interval_ms := 2500, lead_in_ms := 750,
    response_window_ms := 3000, seed := 1 }

def samplePvtConfig : PvtConfig :=
  { target_trials := 2, min_iti_ms := 0, max_iti_ms := 0,
    max_response_ms := 500, min_reaction_trials := 1 }

/-- A PVT engine sitting in `StimulusActive 0` with a recorded onset. -/
def samplePvtActive : PvtEngine :=
  { config := samplePvtConfig, state := .StimulusActive 0,
    trials := [{ index := 0, iti_ms := 0, stimulus_onset := some 50,
                 onset_since_start_ms := some 50, response_at := none,
                 outcome := .Pending }],
    run_id := 1, run_started_at := some 0, run_finished_at := none,
    total_false_starts := 0 }

/-- An NBack engine in `StimulusActive` whose current trial already holds a
response. -/
def sampleNBackResponded : NBackEngine :=
  { config := sampleNBackConfig, state := .StimulusActive .Main 0,
    run_id := 1,
    trials := [{ index := 0, letter := 'B', is_target := false,
                 is_lure := false, presented_at := some 50,
                 response := some { timestamp := 100, rt_ms := 50 },
                 outcome := .FalseAlarm 50 }],
    last_practice_trials := none, last_main_trials := none }

/-- A reachable PVT engine whose trial 0 has been retired as a lapse. -/
def samplePvtRetired : PvtEngine :=
  (PvtOp.register_timeout 0 0 20).applyE
    ((PvtOp.mark_stimulus_on 0 10).applyE
      ((PvtOp.start 0 0).applyE (PvtEngine.new samplePvtConfig)))

/-- The trial list generated by `generate_trials 3 (fun n => n)
sampleNBackConfig .Practice` (letters `B C F C`, index 3 the sole target). -/
def sampleNBackTrials : List NBackTrial :=
  chars_to_trials ['B', 'C', 'F', 'C']

/-- The engine state right after `start 8 (fun n => n) .Practice` from a
fresh engine over `sampleNBackConfig`. -/
def sampleNBackStarted : NBackEngine :=
  { config := sampleNBackConfig, state := .Waiting .Practice 0, run_id := 1,
    trials := sampleNBackTrials, last_practice_trials := none,
    last_main_trials := none }

/-- A reachable NBack engine whose trial 0 has been retired. -/
def sampleNBackRetired : NBackEngine :=
  (NBackOp.advance 0).applyE
    ((NBackOp.start 8 (fun n => n) .Practice).applyE
      (NBackEngine.new sampleNBackConfig))

/-- A config whose practice run has zero trials (generation is immediate). -/
def zeroPracticeConfig : NBackConfig :=
  { total_trials := 4, practice_trials := 0, target_ratio := 1 / 2,
    stimulus_ms := 500, interstimulus_interval_ms := 2500, lead_in_ms := 750,
    response_window_ms := 3000, seed := 1 }

/-- The engine produced by `abort` then `start .Practice` from a fresh engine
over `zeroPracticeConfig`. -/
def sampleStaleNBack : NBackEngine :=
  { config := zeroPracticeConfig, state := .Waiting .Practice 0, run_id := 1,
    trials := [], last_practice_trials := none, last_main_trials := none }

/-! ## Helper lemmas -/

theorem getD_set_of_ne {α : Type} (l : List α) {i j : ℕ} (v d : α)
    (h : i ≠ j) : (l.set i v).getD j d = l.getD j d := by
  simp [List.getD_eq_getElem?_getD, List.getElem?_set_ne h]

theorem getD_set_self {α : Type} (l : List α) {i : ℕ} (v d : α)
    (h : i < l.length) : (l.set i v).getD i d = v := by
  simp [List.getD_eq_getElem?_getD, List.getElem?_set, h]

theorem getD_of_length_le {α : Type} (l : List α) {j : ℕ} (d : α)
    (h : l.length ≤ j) : l.getD j d = d := by
  simp [List.getD_eq_getElem?_getD, List.getElem?_eq_none h]

theorem getD_append_left {α : Type} (l₁ l₂ : List α) {j : ℕ} (d : α)
    (h : j < l₁.length) : (l₁ ++ l₂).getD j d = l₁.getD j d := by
  simp [List.getD_eq_getElem?_getD, List.getElem?_append, h]

/-- General form of the percentile/spec agreement (claim C7's universal part). -/
theorem percentile_eq_spec (sorted : List ℝ) (f : ℝ)
    (hlen : 2 ≤ sorted.length) (hf0 : 0 ≤ f) (hf1 : f ≤ 1) :
    percentile sorted f = percentileSpec sorted f := by
  have hne : sorted.isEmpty = false := by
    cases sorted with
    | nil => simp at hlen
    | cons a l => simp
  have hlen1 : ¬sorted.length = 1 := by omega
  have hclamp : min (max f 0) 1 = f := by
    rw [max_eq_left hf0, min_eq_left hf1]
  have hrank0 : 0 ≤ f * ((sorted.length : ℝ) - 1) := by
    have : (1 : ℝ) ≤ (sorted.length : ℝ) := by
      exact_mod_cast Nat.one_le_of_lt hlen
    nlinarith
  simp only [percentile, percentileSpec, hne, Bool.false_eq_true, if_false,
    hlen1, if_false, hclamp]
  set rank := f * ((sorted.length : ℝ) - 1) with hrank
  by_cases heq : (⌊rank⌋).toNat = (⌈rank⌉).toNat
  · rw [if_pos heq]
    have hfl0 : (0 : ℤ) ≤ ⌊rank⌋ := Int.floor_nonneg.mpr hrank0
    have hcl0 : (0 : ℤ) ≤ ⌈rank⌉ := le_trans hfl0 (Int.floor_le_ceil rank)
    have hfc : ⌊rank⌋ = ⌈rank⌉ := by omega
    have hint : (⌊rank⌋ : ℝ) = rank := by
      have h1 : (⌊rank⌋ : ℝ) ≤ rank := Int.floor_le rank
      have h2 : rank ≤ (⌈rank⌉ : ℝ) := Int.le_ceil rank
      rw [← hfc] at h2
      linarith
    have hcast : (((⌊rank⌋).toNat : ℕ) : ℝ) = rank := by
      calc (((⌊rank⌋).toNat : ℕ) : ℝ)
          = ((⌊rank⌋ : ℤ) : ℝ) := by
            exact_mod_cast congrArg (fun z : ℤ => (z : ℝ))
              (Int.toNat_of_nonneg hfl0)
        _ = rank := hint
    rw [hcast]
    ring
  · rw [if_neg heq]

/-- C7: for every sorted list of at least two values and fraction `f ∈ [0,1]`
the percentile helper interpolates linearly between the floor- and
ceil-ranked values at rank `f×(n−1)`; on `[300, 400, 500, 600]` it yields
`450`, `330` and `570` at `f = 0.5, 0.10, 0.90`. -/
theorem percentile_rank_interpolation :
    (∀ (sorted : List ℝ) (f : ℝ), 2 ≤ sorted.length → 0 ≤ f → f ≤ 1 →
      percentile sorted f = percentileSpec sorted f) ∧
    percentile [300, 400, 500, 600] 0.5 = 450 ∧
    percentile [300, 400, 500, 600] 0.10 = 330 ∧
    percentile [300, 400, 500, 600] 0.90 = 570 := by
  refine ⟨percentile_eq_spec, ?_, ?_, ?_⟩
  · have hc : ⌈(3 : ℝ) / 2⌉ = 2 := by rw [Int.ceil_eq_iff]; norm_num
    have ht : Int.toNat 2 = 2 := rfl
    norm_num [percentile, List.getD, hc, ht]
  · have hc : ⌈(3 : ℝ) / 10⌉ = 1 := by rw [Int.ceil_eq_iff]; norm_num
    have ht : Int.toNat 1 = 1 := rfl
    norm_num [percentile, List.getD, hc, ht]
  · have hc : ⌈(27 : ℝ) / 10⌉ = 3 := by rw [Int.ceil_eq_iff]; norm_num
    have hf : ⌊(27 : ℝ) / 10⌋ = 2 := by rw [Int.floor_eq_iff]; norm_num
    have ht : Int.toNat 2 = 2 := rfl
    have ht3 : Int.toNat 3 = 3 := rfl
    norm_num [percentile, List.getD, hc, hf, ht, ht3]

theorem percentile_rank_interpolation_witness :
    2 ≤ ([(1 : ℝ), 2] : List ℝ).length ∧ (0 : ℝ) ≤ 1 ∧ (1 : ℝ) ≤ 1 ∧
    percentile [(1 : ℝ), 2] 1 = percentileSpec [(1 : ℝ), 2] 1 :=
  ⟨by norm_num, by norm_num, le_refl 1,
   percentile_rank_interpolation.1 [(1 : ℝ), 2] 1 (by norm_num) (by norm_num)
     (le_refl 1)⟩

/-- With no `Reaction` outcome in sight, the collected reaction-time list is
empty. -/
theorem reaction_times_nil (trials : List PvtTrial)
    (h : ∀ t ∈ trials, t.outcome.isReaction = false) :
    trials.filterMap (fun t =>
      match t.outcome with
      | .Reaction rt => some ((rt : ℚ) : ℝ)
      | _ => none) = [] := by
  rw [List.filterMap_eq_nil]
  intro t ht
  have := h t ht
  cases hout : t.outcome <;> simp [hout] <;>
    simp [PvtOutcome.isReaction, hout] at this

/-- C8: a PVT trial list with zero reactions produces the all-default record
(total trials and false starts still reported, minimum-trial flag false), and
the percentile / regression helpers degrade on short inputs: `0` for empty
lists, the sole element for a singleton percentile, `0` for a regression on
fewer than two points. -/
theorem pvt_metrics_zero_reactions :
    (∀ (trials : List PvtTrial) (false_starts min_required : ℕ),
      (∀ t ∈ trials, t.outcome.isReaction = false) →
      PvtMetrics.from_trials trials false_starts min_required =
        { total_trials := (trials.filter (fun t => t.is_completed)).length,
          reacted_trials := 0, median_rt_ms := 0, mean_rt_ms := 0,
          sd_rt_ms := 0, p10_rt_ms := 0, p90_rt_ms := 0, lapses_ge_500ms := 0,
          minor_lapses_355_499ms := 0, false_starts := false_starts,
          time_on_task_slope_ms_per_min := 0,
          meets_min_trial_requirement := false }) ∧
    (∀ pct : ℝ, percentile [] pct = 0) ∧
    (∀ (x pct : ℝ), percentile [x] pct = x) ∧
    (∀ xs ys : List ℝ, xs.length < 2 → slope_minutes xs ys = 0) ∧
    (∀ xs ys : List ℝ, ys.length < 2 → slope_minutes xs ys = 0) := by
  refine ⟨?_, ?_, ?_, ?_, ?_⟩
  · intro trials false_starts min_required h
    rw [PvtMetrics.from_trials]
    rw [reaction_times_nil trials h]
    simp
  · intro pct
    simp [percentile]
  · intro x pct
    simp [percentile, List.getD]
  · intro xs ys h
    rw [slope_minutes, if_pos (Or.inl h)]
  · intro xs ys h
    rw [slope_minutes, if_pos (Or.inr (Or.inl h))]

theorem pvt_metrics_zero_reactions_witness :
    (∀ t ∈ [{ index := 0, iti_ms := 5, stimulus_onset := some 0,
              onset_since_start_ms := some 0, response_at := none,
              outcome := .Lapse : PvtTrial }],
      t.outcome.isReaction = false) ∧
    PvtMetrics.from_trials
        [{ index := 0, iti_ms := 5, stimulus_onset := some 0,
           onset_since_start_ms := some 0, response_at := none,
           outcome := .Lapse : PvtTrial }] 2 12 =
      { total_trials := 1, reacted_trials := 0, median_rt_ms := 0,
        mean_rt_ms := 0, sd_rt_ms := 0, p10_rt_ms := 0, p90_rt_ms := 0,
        lapses_ge_500ms := 0, minor_lapses_355_499ms := 0, false_starts := 2,
        time_on_task_slope_ms_per_min := 0,
        meets_min_trial_requirement := false } := by
  constructor
  · intro t ht
    simp only [List.mem_singleton] at ht
    subst ht
    rfl
  · rw [pvt_metrics_zero_reactions.1 _ 2 12 (by
      intro t ht
      simp only [List.mem_singleton] at ht
      subst ht
      rfl)]
    simp [PvtTrial.is_completed]

/-- Counterexample to C8 as stated: on the single-element input `[300]` the
percentile helper returns the element, not `0.0`. -/
theorem pvt_metrics_zero_reactions_cex :
    percentile [(300 : ℝ)] 0.5 = 300 ∧ (300 : ℝ) ≠ 0 := by
  constructor
  · simp [percentile, List.getD]
  · norm_num

/-- C5: the signal-detection computation agrees with the spec's formulas
(log-linear correction, clamp, Acklam `Φ⁻¹`, `d′` and criterion) whenever at
least one target and one non-target trial exist; the source first raises a
zero trial count to one (`.max(1)`), which is where the two differ. -/
theorem signal_detection_formulas (hits false_alarms : ℕ)
    (target_trials non_target_trials : ℕ) (ht : 1 ≤ target_trials)
    (hn : 1 ≤ non_target_trials) :
    signal_detection_indices hits false_alarms target_trials
        non_target_trials =
      signal_detection_indices_spec hits false_alarms target_trials
        non_target_trials := by
  simp only [signal_detection_indices, signal_detection_indices_spec]
  rw [Nat.max_eq_left ht, Nat.max_eq_left hn]

theorem signal_detection_formulas_witness :
    1 ≤ 3 ∧ 1 ≤ 4 ∧
    signal_detection_indices 2 1 3 4 = signal_detection_indices_spec 2 1 3 4 :=
  ⟨by norm_num, by norm_num,
   signal_detection_formulas 2 1 3 4 (by norm_num) (by norm_num)⟩

/-- The central Acklam approximant at `p = 1/2` vanishes. -/
theorem acklamCentral_half : acklamCentral 0.5 = 0 := by
  simp only [acklamCentral]
  norm_num

/-- The central Acklam approximant at `p = 1/4` is nonzero (its exact
rational value has nonzero numerator and denominator). -/
theorem acklamCentral_quarter_ne : acklamCentral 0.25 ≠ 0 := by
  simp only [acklamCentral]
  rw [div_ne_zero_iff]
  constructor
  · norm_num
  · norm_num

/-- `Φ⁻¹` at `1/4` and `1/2` falls in the central region. -/
theorem inverse_normal_cdf_quarter :
    inverse_normal_cdf 0.25 = ((acklamCentral 0.25 : ℝ) : EReal) := by
  rw [inverse_normal_cdf, if_neg (by norm_num), if_neg (by norm_num),
    if_neg (by norm_num [P_LOW]), if_neg (by norm_num [P_LOW])]

theorem inverse_normal_cdf_half :
    inverse_normal_cdf 0.5 = ((acklamCentral 0.5 : ℝ) : EReal) := by
  rw [inverse_normal_cdf, if_neg (by norm_num), if_neg (by norm_num),
    if_neg (by norm_num [P_LOW]), if_neg (by norm_num [P_LOW])]

/-- Counterexample to C5 as stated: with `targets = 0` (and one non-target)
the code's `.max(1)` correction makes the adjusted hit rate `0.25`, while the
claimed formula `(hits + 0.5)/(targets + 1)` gives `0.5`, so the computed
pair differs from the claimed one. -/
theorem signal_detection_formulas_cex :
    signal_detection_indices 0 0 0 1 ≠ signal_detection_indices_spec 0 0 0 1 := by
  intro h
  have h1 :
      (signal_detection_indices 0 0 0 1).1 =
        (signal_detection_indices_spec 0 0 0 1).1 := by rw [h]
  rw [signal_detection_indices, signal_detection_indices_spec] at h1
  simp only at h1
  have hcode :
      f64_clamp ((((0 : ℕ) : ℝ) + 0.5) / (((max (0 : ℕ) 1 : ℕ) : ℝ) + 1.0))
        1e-6 (1 - 1e-6) = 0.25 := by
    norm_num [f64_clamp]
  have hspec :
      f64_clamp ((((0 : ℕ) : ℝ) + 0.5) / (((0 : ℕ) : ℝ) + 1.0))
        1e-6 (1 - 1e-6) = 0.5 := by
    norm_num [f64_clamp]
  have hfa :
      f64_clamp ((((0 : ℕ) : ℝ) + 0.5) / (((max (1 : ℕ) 1 : ℕ) : ℝ) + 1.0))
        1e-6 (1 - 1e-6) = 0.25 := by
    norm_num [f64_clamp]
  have hfa2 :
      f64_clamp ((((0 : ℕ) : ℝ) + 0.5) / (((1 : ℕ) : ℝ) + 1.0))
        1e-6 (1 - 1e-6) = 0.25 := by
    norm_num [f64_clamp]
  rw [hcode, hfa, hspec, hfa2, inverse_normal_cdf_quarter,
    inverse_normal_cdf_half, acklamCentral_half] at h1
  rw [← EReal.coe_sub, ← EReal.coe_sub, EReal.coe_eq_coe_iff] at h1
  have : acklamCentral 0.25 = 0 := by linarith [sub_self (acklamCentral 0.25)]
  exact acklamCentral_quarter_ne this

theorem get?_eq_some_getD {α : Type} (l : List α) (d : α) {i : ℕ}
    (h : i < l.length) : l.get? i = some (l.getD i d) := by
  rw [List.get?_eq_getElem?, List.getD_eq_getElem?_getD,
    List.getElem?_eq_getElem h]
  rfl

theorem get?_eq_none_of_le {α : Type} (l : List α) {i : ℕ}
    (h : l.length ≤ i) : l.get? i = none := by
  rw [List.get?_eq_getElem?]
  exact List.getElem?_eq_none h

/-- `schedule_next` never rewrites an existing trial: position `j` is
untouched whether the run completes or a fresh pending trial is appended. -/
theorem schedule_next_getD (e : PvtEngine) (draw : ℕ) (now : ℚ) {j : ℕ}
    (h : j < e.trials.length) :
    ((e.schedule_next draw now).1).trials.getD j pvtTrialDflt =
      e.trials.getD j pvtTrialDflt := by
  rw [PvtEngine.schedule_next]
  split
  · rfl
  · exact getD_append_left _ _ _ h

/-- C2: a PVT response in `StimulusActive{i}` on a trial with recorded onset
is classified `FalseStart` exactly when `now − onset < 100` and
`Reaction{now − onset}` exactly when `now − onset ≥ 100`; a response in
`Waiting{i}` is always classified `FalseStart`. -/
theorem pvt_response_classification (e : PvtEngine) (draw : ℕ) (now ts : ℚ)
    (i : ℕ) (onset : ℚ) :
    (e.state = .StimulusActive i →
      (e.trials.getD i pvtTrialDflt).stimulus_onset = some onset →
      ((ts - onset < 100 →
        (((e.register_response draw now ts).1).trials.getD i
            pvtTrialDflt).outcome = .FalseStart) ∧
       (100 ≤ ts - onset →
        (((e.register_response draw now ts).1).trials.getD i
            pvtTrialDflt).outcome = .Reaction (ts - onset)))) ∧
    (e.state = .Waiting i → i < e.trials.length →
      (((e.register_response draw now ts).1).trials.getD i
          pvtTrialDflt).outcome = .FalseStart) := by
  constructor
  · intro hst honset
    have hlt : i < e.trials.length := by
      by_contra hge
      push_neg at hge
      rw [getD_of_length_le _ _ hge] at honset
      simp [pvtTrialDflt, PvtTrial.new] at honset
    have hget := get?_eq_some_getD e.trials pvtTrialDflt hlt
    constructor
    · intro hrt
      have hdur : duration_ms onset ts < FALSE_START_THRESHOLD_MS := by
        rw [duration_ms, FALSE_START_THRESHOLD_MS]
        rw [max_lt_iff]
        exact ⟨hrt, by norm_num⟩
      simp only [PvtEngine.register_response, hst, hget, honset, hdur,
        if_true, if_pos hdur]
      rw [schedule_next_getD]
      · rw [getD_set_self _ _ _ hlt]
      · simpa using hlt
    · intro hrt
      have hpos : (0 : ℚ) ≤ ts - onset := le_trans (by norm_num) hrt
      have hdurv : duration_ms onset ts = ts - onset := by
        rw [duration_ms, max_eq_left hpos]
      have hdur : ¬duration_ms onset ts < FALSE_START_THRESHOLD_MS := by
        rw [hdurv, FALSE_START_THRESHOLD_MS]
        exact not_lt.mpr hrt
      simp only [PvtEngine.register_response, hst, hget, honset,
        if_neg hdur]
      rw [schedule_next_getD]
      · rw [getD_set_self _ _ _ hlt, hdurv]
      · simpa using hlt
  · intro hst hlt
    have hget := get?_eq_some_getD e.trials pvtTrialDflt hlt
    simp only [PvtEngine.register_response, hst, hget]
    rw [schedule_next_getD]
    · rw [getD_set_self _ _ _ hlt]
    · simpa using hlt

theorem pvt_response_classification_witness :
    samplePvtActive.state = .StimulusActive 0 ∧
    (samplePvtActive.trials.getD 0 pvtTrialDflt).stimulus_onset = some 50 ∧
    (100 : ℚ) ≤ 250 - 50 ∧
    (((samplePvtActive.register_response 0 300 250).1).trials.getD 0
        pvtTrialDflt).outcome = .Reaction (250 - 50) :=
  ⟨rfl, rfl, by norm_num,
   ((pvt_response_classification samplePvtActive 0 300 250 0 50).1 rfl
       rfl).2 (by norm_num)⟩

/-- C10: an NBack response in `StimulusActive` whose current trial already
carries a recorded response is ignored and mutates nothing. -/
theorem nback_response_recorded_once (e : NBackEngine) (ts : ℚ)
    (mode : RunMode) (i : ℕ) (hst : e.state = .StimulusActive mode i)
    (hresp : ((e.trials.getD i nbackTrialDflt).response).isSome = true) :
    e.register_response ts = (e, .Ignored) := by
  rcases Nat.lt_or_ge i e.trials.length with hlt | hge
  · have hget := get?_eq_some_getD e.trials nbackTrialDflt hlt
    obtain ⟨r, hr⟩ := Option.isSome_iff_exists.mp hresp
    simp only [NBackEngine.register_response, hst, hget, hr]
  · have hnone := get?_eq_none_of_le e.trials hge
    simp only [NBackEngine.register_response, hst, hnone]

theorem nback_response_recorded_once_witness :
    sampleNBackResponded.state = .StimulusActive .Main 0 ∧
    ((sampleNBackResponded.trials.getD 0 nbackTrialDflt).response).isSome
      = true ∧
    sampleNBackResponded.register_response 400 =
      (sampleNBackResponded, .Ignored) :=
  ⟨rfl, rfl,
   nback_response_recorded_once sampleNBackResponded 400 .Main 0 rfl rfl⟩

/-- Bumping a `u64` generation counter always changes it. -/
theorem succ_mod_ne {r : ℕ} (h : r < U64_MOD) : (r + 1) % U64_MOD ≠ r := by
  rcases Nat.lt_or_ge (r + 1) U64_MOD with h1 | h1
  · rw [Nat.mod_eq_of_lt h1]
    omega
  · have h2 : r + 1 = U64_MOD := by omega
    rw [h2, Nat.mod_self]
    have h3 : 2 ≤ U64_MOD := by norm_num [U64_MOD]
    omega

/-- C9: a scheduling event (stimulus-onset, response-timeout or advance)
carrying the `run_id` current when it was scheduled is ignored — no state
mutation — once a subsequent `abort()` + `start()` has bumped the live
`run_id`, for both engines. -/
theorem stale_events_ignored :
    (∀ (e : PvtEngine) (nowA nowS ts tnow : ℚ) (draw idx tdraw : ℕ),
      e.run_id < U64_MOD →
      (((e.abort nowA).start nowS draw).1.handle_stimulus_ready e.run_id idx
          ts = (((e.abort nowA).start nowS draw).1, none)) ∧
      (((e.abort nowA).start nowS draw).1.handle_timeout e.run_id idx tdraw
          tnow = (((e.abort nowA).start nowS draw).1, .Ignored))) ∧
    (∀ (e : NBackEngine) (fuel : ℕ) (s : ℕ → ℕ) (mode : RunMode)
       (e2 : NBackEngine) (sch : Option TrialSchedule) (ts : ℚ) (idx : ℕ),
      e.run_id < U64_MOD →
      e.abort.start fuel s mode = some (e2, sch) →
      e2.handle_stimulus_ready e.run_id idx ts = (e2, false) ∧
      e2.handle_advance e.run_id idx = (e2, .Ignored)) := by
  constructor
  · intro e nowA nowS ts tnow draw idx tdraw h
    have hrid : (((e.abort nowA).start nowS draw).1).run_id =
        (e.run_id + 1) % U64_MOD := rfl
    have hne : (((e.abort nowA).start nowS draw).1).run_id ≠ e.run_id := by
      rw [hrid]
      exact succ_mod_ne h
    constructor
    · rw [PvtEngine.handle_stimulus_ready, if_pos hne]
    · rw [PvtEngine.handle_timeout, if_pos hne]
  · intro e fuel s mode e2 sch ts idx h hstart
    have hrid : e2.run_id = (e.run_id + 1) % U64_MOD := by
      rw [NBackEngine.start] at hstart
      simp only [NBackEngine.abort] at hstart
      rw [Option.map_eq_some'] at hstart
      obtain ⟨tl, _, heq⟩ := hstart
      have := congrArg Prod.fst heq
      simp only at this
      rw [← this]
    have hne : ¬e2.run_id = e.run_id := by
      rw [hrid]
      exact succ_mod_ne h
    constructor
    · rw [NBackEngine.handle_stimulus_ready, if_neg hne]
    · rw [NBackEngine.handle_advance, if_neg hne]

theorem stale_events_ignored_witness :
    (PvtEngine.new samplePvtConfig).run_id < U64_MOD ∧
    ((((PvtEngine.new samplePvtConfig).abort 5).start 6 0).1.handle_stimulus_ready
        (PvtEngine.new samplePvtConfig).run_id 0 7 =
      ((((PvtEngine.new samplePvtConfig).abort 5).start 6 0).1, none)) ∧
    (NBackEngine.new zeroPracticeConfig).run_id < U64_MOD ∧
    ((NBackEngine.new zeroPracticeConfig).abort.start 8 (fun n => n) .Practice
      = some (sampleStaleNBack, some (sampleStaleNBack.schedule_current 0))) ∧
    (sampleStaleNBack.handle_advance (NBackEngine.new zeroPracticeConfig).run_id
        0 = (sampleStaleNBack, .Ignored)) :=
  ⟨by norm_num [PvtEngine.new, U64_MOD],
   (stale_events_ignored.1 (PvtEngine.new samplePvtConfig) 5 6 7 0 0 0 0
     (by norm_num [PvtEngine.new, U64_MOD])).1,
   by norm_num [NBackEngine.new, U64_MOD],
   rfl,
   (stale_events_ignored.2 (NBackEngine.new zeroPracticeConfig) 8 (fun n => n)
     .Practice sampleStaleNBack (some (sampleStaleNBack.schedule_current 0))
     0 0 (by norm_num [NBackEngine.new, U64_MOD]) rfl).2⟩

theorem length_list_swap (l : List ℕ) (a b : ℕ) :
    (list_swap l a b).length = l.length := by
  simp [list_swap]

theorem length_fy_aux (s : ℕ → ℕ) :
    ∀ (i j : ℕ) (l : List ℕ), (fy_aux s j i l).length = l.length := by
  intro i
  induction i with
  | zero => intro j l; rfl
  | succ i ih =>
      intro j l
      rw [fy_aux, ih, length_list_swap]

theorem length_fisher_yates (s : ℕ → ℕ) (j : ℕ) (l : List ℕ) :
    (fisher_yates s j l).length = l.length := length_fy_aux s _ j l

/-- `rustRound` is nonnegative on nonnegative inputs. -/
theorem rustRound_nonneg {x : ℚ} (h : 0 ≤ x) : 0 ≤ rustRound x := by
  rw [rustRound, if_pos h]
  exact Int.floor_nonneg.mpr (by linarith)

/-- `rustRound` of a value at most `m` is at most `m`. -/
theorem rustRound_le {x : ℚ} {m : ℕ} (h0 : 0 ≤ x) (h : x ≤ (m : ℚ)) :
    rustRound x ≤ (m : ℤ) := by
  rw [rustRound, if_pos h0]
  have : ⌊x + 1 / 2⌋ < (m : ℤ) + 1 := by
    rw [Int.floor_lt]
    push_cast
    linarith
  omega

theorem target_quota_le (length : ℕ) (ratio : ℚ) :
    target_quota length ratio ≤ length - 2 := by
  rw [target_quota]
  simp only
  split
  · simp
  · split
    · split
      · omega
      · omega
    · split
      · omega
      · rename_i hmax hq0 hlt
        push_neg at hlt
        omega

theorem chosen_targets_length (s : ℕ → ℕ) (j length : ℕ) (ratio : ℚ) :
    (chosen_targets s j length ratio).length = target_quota length ratio := by
  rw [chosen_targets, List.length_insertionSort, List.length_take,
    length_fisher_yates, List.length_range']
  exact min_eq_left (target_quota_le length ratio)

/-- C4 (amended): the number of chosen target indices equals
`round(target_ratio × (length − 2))` clamped to at least `1` whenever any
candidates exist — even when `target_ratio = 0` — and to at most the
candidate count; for `length ≤ 2` no target is chosen. -/
theorem nback_target_quota (s : ℕ → ℕ) (j length : ℕ) (ratio : ℚ)
    (h0 : 0 ≤ ratio) (h1 : ratio ≤ 1) :
    (chosen_targets s j length ratio).length = target_quota length ratio ∧
    (2 < length →
      target_quota length ratio =
        min (length - 2)
          (max 1 (rustRound (((length - 2 : ℕ) : ℚ) * ratio)).toNat)) ∧
    (length ≤ 2 → target_quota length ratio = 0) := by
  refine ⟨chosen_targets_length s j length ratio, ?_, ?_⟩
  · intro hlen
    have hx0 : 0 ≤ ((length - 2 : ℕ) : ℚ) * ratio :=
      mul_nonneg (by positivity) h0
    have hxm : ((length - 2 : ℕ) : ℚ) * ratio ≤ ((length - 2 : ℕ) : ℚ) := by
      nlinarith [Nat.cast_nonneg (α := ℚ) (length - 2)]
    have hq0 : 0 ≤ rustRound (((length - 2 : ℕ) : ℚ) * ratio) :=
      rustRound_nonneg hx0
    have hqm : rustRound (((length - 2 : ℕ) : ℚ) * ratio) ≤
        ((length - 2 : ℕ) : ℤ) := rustRound_le hx0 hxm
    rw [target_quota]
    simp only
    have hmax : ¬(length - 2 = 0) := by omega
    rw [if_neg hmax]
    split
    · split
      · omega
      · omega
    · split
      · omega
      · omega
  · intro hlen
    have hmax : length - 2 = 0 := by omega
    rw [target_quota]
    simp only [hmax]
    rfl

/-- Counterexample to C4 as stated: with `target_ratio = 0` and four trials
the code still picks one target index, not zero. -/
theorem nback_target_quota_cex :
    (chosen_targets (fun _ => 0) 0 4 0).length = 1 ∧ (1 : ℕ) ≠ 0 := by
  constructor
  · rw [chosen_targets_length]
    rw [target_quota]
    have hr : rustRound (((4 - 2 : ℕ) : ℚ) * 0) = 0 := by
      rw [rustRound, if_pos (by norm_num)]
      norm_num
    simp only [hr]
    rfl
  · omega

theorem nback_target_quota_witness :
    (0 : ℚ) ≤ 1 / 2 ∧ (1 / 2 : ℚ) ≤ 1 ∧
    (chosen_targets (fun n => n) 0 4 (1 / 2)).length =
      target_quota 4 (1 / 2) ∧
    (target_quota 4 (1 / 2) =
      min (4 - 2) (max 1 (rustRound (((4 - 2 : ℕ) : ℚ) * (1 / 2))).toNat)) :=
  ⟨by norm_num, by norm_num,
   (nback_target_quota (fun n => n) 0 4 (1 / 2) (by norm_num) (by norm_num)).1,
   (nback_target_quota (fun n => n) 0 4 (1 / 2) (by norm_num)
       (by norm_num)).2.1 (by norm_num)⟩

/-- The rejection sampler never returns the disallowed letter. -/
theorem random_letter_ne :
    ∀ (fuel : ℕ) (s : ℕ → ℕ) (j : ℕ) (d c : Char) (j2 : ℕ),
      random_letter fuel s j (some d) = some (c, j2) → c ≠ d := by
  intro fuel
  induction fuel with
  | zero => intro s j d c j2 h; exact absurd h (by simp [random_letter])
  | succ fuel ih =>
      intro s j d c j2 h
      rw [random_letter] at h
      by_cases hd : (some d : Option Char) =
          some (LETTER_POOL.getD (s j % LETTER_POOL.length) 'A')
      · rw [if_pos hd] at h
        exact ih s (j + 1) d c j2 h
      · rw [if_neg hd] at h
        simp only [Option.some.injEq, Prod.mk.injEq] at h
        intro hc
        exact hd (by rw [h.1, hc])

theorem fill_loop_length (fuel : ℕ) (s : ℕ → ℕ) (chosen : List ℕ) :
    ∀ (r idx j : ℕ) (letters out : List Char),
      fill_loop fuel s chosen r idx j letters = some out →
      out.length = letters.length := by
  intro r
  induction r with
  | zero =>
      intro idx j letters out h
      simp only [fill_loop, Option.some.injEq] at h
      rw [← h]
  | succ r ih =>
      intro idx j letters out h
      simp only [fill_loop] at h
      by_cases hmem : idx ∈ chosen
      · rw [if_pos hmem] at h
        have := ih (idx + 1) j _ out h
        rw [this, List.length_set]
      · rw [if_neg hmem] at h
        cases hrl : random_letter fuel s j (some (letters.getD (idx - 2) ' '))
          with
        | none => rw [hrl] at h; exact absurd h (by simp)
        | some p =>
            obtain ⟨c, j2⟩ := p
            rw [hrl] at h
            have := ih (idx + 1) j2 _ out h
            rw [this, List.length_set]

theorem fill_loop_stable (fuel : ℕ) (s : ℕ → ℕ) (chosen : List ℕ) :
    ∀ (r idx j : ℕ) (letters out : List Char),
      fill_loop fuel s chosen r idx j letters = some out →
      ∀ k, k < idx → out.getD k ' ' = letters.getD k ' ' := by
  intro r
  induction r with
  | zero =>
      intro idx j letters out h k hk
      simp only [fill_loop, Option.some.injEq] at h
      rw [← h]
  | succ r ih =>
      intro idx j letters out h k hk
      simp only [fill_loop] at h
      by_cases hmem : idx ∈ chosen
      · rw [if_pos hmem] at h
        have hres := ih (idx + 1) j _ out h k (by omega)
        rw [hres, getD_set_of_ne _ _ _ (by omega)]
      · rw [if_neg hmem] at h
        cases hrl : random_letter fuel s j (some (letters.getD (idx - 2) ' '))
          with
        | none => rw [hrl] at h; exact absurd h (by simp)
        | some p =>
            obtain ⟨c, j2⟩ := p
            rw [hrl] at h
            have hres := ih (idx + 1) j2 _ out h k (by omega)
            rw [hres, getD_set_of_ne _ _ _ (by omega)]

/-- Dichotomy established by the fill loop: a chosen index ends up equal to
the letter two back, an unchosen index different from it. -/
theorem fill_loop_spec (fuel : ℕ) (s : ℕ → ℕ) (chosen : List ℕ) (len : ℕ) :
    ∀ (r idx j : ℕ) (letters out : List Char),
      letters.length = len → 2 ≤ idx → idx + r = len →
      fill_loop fuel s chosen r idx j letters = some out →
      ∀ k, idx ≤ k → k < len →
        ((k ∈ chosen → out.getD k ' ' = out.getD (k - 2) ' ') ∧
         (k ∉ chosen → out.getD k ' ' ≠ out.getD (k - 2) ' ')) := by
  intro r
  induction r with
  | zero =>
      intro idx j letters out hlen hidx hsum h k hk1 hk2
      omega
  | succ r ih =>
      intro idx j letters out hlen hidx hsum h k hk1 hk2
      simp only [fill_loop] at h
      have hidxlt : idx < letters.length := by omega
      by_cases hmem : idx ∈ chosen
      · rw [if_pos hmem] at h
        rcases Nat.eq_or_lt_of_le hk1 with hk | hk
        · subst hk
          have ho1 : out.getD idx ' ' =
              (letters.set idx (letters.getD (idx - 2) ' ')).getD idx ' ' :=
            fill_loop_stable fuel s chosen r (idx + 1) j _ out h idx
              (by omega)
          have ho2 : out.getD (idx - 2) ' ' =
              (letters.set idx (letters.getD (idx - 2) ' ')).getD (idx - 2)
                ' ' :=
            fill_loop_stable fuel s chosen r (idx + 1) j _ out h (idx - 2)
              (by omega)
          rw [ho1, ho2, getD_set_self _ _ _ hidxlt,
            getD_set_of_ne _ _ _ (by omega)]
          exact ⟨fun _ => rfl, fun hn => absurd hmem hn⟩
        · exact ih (idx + 1) j _ out (by rw [List.length_set]; exact hlen)
            (by omega) (by omega) h k (by omega) hk2
      · rw [if_neg hmem] at h
        cases hrl : random_letter fuel s j (some (letters.getD (idx - 2) ' '))
          with
        | none => rw [hrl] at h; exact absurd h (by simp)
        | some p =>
            obtain ⟨c, j2⟩ := p
            rw [hrl] at h
            have hcne : c ≠ letters.getD (idx - 2) ' ' :=
              random_letter_ne fuel s j _ c j2 hrl
            rcases Nat.eq_or_lt_of_le hk1 with hk | hk
            · subst hk
              have ho1 : out.getD idx ' ' = (letters.set idx c).getD idx ' '
                := fill_loop_stable fuel s chosen r (idx + 1) j2 _ out h idx
                  (by omega)
              have ho2 : out.getD (idx - 2) ' ' =
                  (letters.set idx c).getD (idx - 2) ' ' :=
                fill_loop_stable fuel s chosen r (idx + 1) j2 _ out h
                  (idx - 2) (by omega)
              rw [ho1, ho2, getD_set_self _ _ _ hidxlt,
                getD_set_of_ne _ _ _ (by omega)]
              exact ⟨fun hmem2 => absurd hmem2 hmem, fun _ => hcne⟩
            · exact ih (idx + 1) j2 _ out (by rw [List.length_set]; exact hlen)
                (by omega) (by omega) h k (by omega) hk2

theorem initial_letters_length (fuel : ℕ) (s : ℕ → ℕ) (length : ℕ)
    (init : List Char) (j1 : ℕ)
    (h : initial_letters fuel s length = some (init, j1)) :
    init.length = length := by
  match length with
  | 0 =>
      simp only [initial_letters, Option.some.injEq, Prod.mk.injEq] at h
      rw [← h.1]
      rfl
  | 1 =>
      rw [initial_letters] at h
      cases hrl : random_letter fuel s 0 none with
      | none => rw [hrl] at h; exact absurd h (by simp)
      | some p =>
          rw [hrl] at h
          simp only [Option.map_some', Option.some.injEq, Prod.mk.injEq] at h
          rw [← h.1]
          rfl
  | n + 2 =>
      rw [initial_letters] at h
      cases hrl : random_letter fuel s 0 none with
      | none => rw [hrl] at h; exact absurd h (by simp)
      | some p =>
          obtain ⟨c0, j0⟩ := p
          rw [hrl] at h
          cases hrl2 : random_letter fuel s j0 none with
          | none => simp [hrl2] at h
          | some q =>
              obtain ⟨c1, jb⟩ := q
              simp only [hrl2, Option.bind_eq_bind, Option.some_bind,
                Option.some.injEq, Prod.mk.injEq] at h
              rw [← h.1]
              simp

theorem chars_to_trials_length (letters : List Char) :
    (chars_to_trials letters).length = letters.length := by
  simp [chars_to_trials]

theorem chars_to_trials_getD (letters : List Char) {k : ℕ}
    (h : k < letters.length) :
    (chars_to_trials letters).getD k nbackTrialDflt =
      NBackTrial.new k (letters.getD k ' ')
        (decide (2 ≤ k) &&
          decide (letters.getD k ' ' = letters.getD (k - 2) ' '))
        (decide (1 ≤ k) &&
          decide (letters.getD k ' ' = letters.getD (k - 1) ' ')) := by
  rw [chars_to_trials, List.getD_eq_getElem?_getD, List.getElem?_map,
    List.getElem?_range h]
  rfl

/-- C1: in every generated NBack trial list, for every index `idx ≥ 2` the
derived `is_target` flag holds exactly when the letter equals the letter two
positions back, and exactly when `idx` was a chosen target index — chosen
indices copy the two-back letter, unchosen indices draw a letter excluding
it. -/
theorem nback_two_back_consistency (fuel : ℕ) (s : ℕ → ℕ)
    (cfg : NBackConfig) (mode : RunMode) (T : List NBackTrial)
    (init : List Char) (j1 : ℕ)
    (hinit : initial_letters fuel s (run_length cfg mode) = some (init, j1))
    (hgen : generate_trials fuel s cfg mode = some T)
    (idx : ℕ) (h2 : 2 ≤ idx) (hlt : idx < T.length) :
    (((T.getD idx nbackTrialDflt).is_target = true) ↔
      (T.getD idx nbackTrialDflt).letter =
        (T.getD (idx - 2) nbackTrialDflt).letter) ∧
    (((T.getD idx nbackTrialDflt).is_target = true) ↔
      idx ∈ chosen_targets s j1 (run_length cfg mode) cfg.target_ratio) := by
  rw [generate_trials] at hgen
  by_cases hlen0 : run_length cfg mode = 0
  · rw [if_pos hlen0] at hgen
    simp only [Option.some.injEq] at hgen
    rw [← hgen] at hlt
    simp at hlt
  · rw [if_neg hlen0] at hgen
    rw [hinit] at hgen
    simp only [Option.bind_eq_bind, Option.some_bind] at hgen
    cases hfl : fill_loop fuel s
        (chosen_targets s j1 (run_length cfg mode) cfg.target_ratio)
        (run_length cfg mode - 2) 2
        (j1 + (run_length cfg mode - 2 - 1)) init with
    | none => rw [hfl] at hgen; simp at hgen
    | some letters =>
        rw [hfl] at hgen
        simp only [Option.some_bind, Option.some.injEq] at hgen
        have hinitlen : init.length = run_length cfg mode :=
          initial_letters_length fuel s _ init j1 hinit
        have hletlen : letters.length = run_length cfg mode := by
          rw [fill_loop_length fuel s _ _ _ _ init letters hfl, hinitlen]
        have hTlen : T.length = run_length cfg mode := by
          rw [← hgen, chars_to_trials_length, hletlen]
        have hidxlen : idx < run_length cfg mode := by omega
        have hidx2len : idx - 2 < run_length cfg mode := by omega
        have hspec := fill_loop_spec fuel s
          (chosen_targets s j1 (run_length cfg mode) cfg.target_ratio)
          (run_length cfg mode) (run_length cfg mode - 2) 2
          (j1 + (run_length cfg mode - 2 - 1)) init letters hinitlen
          (le_refl 2) (by omega) hfl idx h2 hidxlen
        have hgetidx := chars_to_trials_getD letters
          (k := idx) (by omega)
        have hgetidx2 := chars_to_trials_getD letters
          (k := idx - 2) (by omega)
        rw [← hgen]
        rw [hgetidx, hgetidx2]
        simp only [NBackTrial.new]
        have h2d : decide (2 ≤ idx) = true := decide_eq_true h2
        rw [h2d]
        simp only [Bool.true_and, decide_eq_true_eq]
        constructor
        · trivial
        · constructor
          · intro heq
            by_contra hnm
            exact (hspec.2 hnm) heq
          · exact hspec.1

theorem nback_two_back_consistency_witness :
    (initial_letters 3 (fun n => n) (run_length sampleNBackConfig .Practice)
      = some (['B', 'C', ' ', ' '], 2)) ∧
    (generate_trials 3 (fun n => n) sampleNBackConfig .Practice =
      some sampleNBackTrials) ∧
    (((sampleNBackTrials.getD 3 nbackTrialDflt).is_target = true) ↔
      (sampleNBackTrials.getD 3 nbackTrialDflt).letter =
        (sampleNBackTrials.getD 1 nbackTrialDflt).letter) ∧
    (((sampleNBackTrials.getD 3 nbackTrialDflt).is_target = true) ↔
      3 ∈ chosen_targets (fun n => n) 2 (run_length sampleNBackConfig
        .Practice) sampleNBackConfig.target_ratio) := by
  have hch : chosen_targets (fun n => n) 2
      (run_length sampleNBackConfig .Practice)
      sampleNBackConfig.target_ratio = [3] := by
    show chosen_targets (fun n => n) 2 4 (1 / 2) = [3]
    rw [chosen_targets]
    have hq : target_quota 4 (1 / 2) = 1 := by
      have hr : rustRound (((4 - 2 : ℕ) : ℚ) * (1 / 2)) = 1 := by
        rw [rustRound, if_pos (by norm_num)]
        norm_num
      rw [target_quota]
      simp only [hr]
      decide
    rw [hq]
    decide
  have hg : generate_trials 3 (fun n => n) sampleNBackConfig .Practice =
      some sampleNBackTrials := by
    rw [generate_trials]
    rw [if_neg (by decide)]
    rw [show initial_letters 3 (fun n => n)
      (run_length sampleNBackConfig .Practice) =
      some (['B', 'C', ' ', ' '], 2) from rfl]
    simp only [Option.bind_eq_bind, Option.some_bind]
    rw [hch]
    decide
  refine ⟨rfl, hg, ?_, ?_⟩
  · exact (nback_two_back_consistency 3 (fun n => n) sampleNBackConfig
      .Practice sampleNBackTrials ['B', 'C', ' ', ' '] 2 rfl hg 3
      (by norm_num) (by decide)).1
  · exact (nback_two_back_consistency 3 (fun n => n) sampleNBackConfig
      .Practice sampleNBackTrials ['B', 'C', ' ', ' '] 2 rfl hg 3
      (by norm_num) (by decide)).2

theorem getD_concat_self {α : Type} (l : List α) (x d : α) :
    (l ++ [x]).getD l.length d = x := by
  rw [List.getD_eq_getElem?_getD, List.getElem?_concat_length]
  rfl

/-- Whatever the incoming state, `schedule_next` re-establishes the pending
invariant: it either completes the run or appends a fresh pending trial and
waits on it. -/
theorem schedule_next_inv (e : PvtEngine) (draw : ℕ) (now : ℚ) :
    PvtInv (e.schedule_next draw now).1 := by
  by_cases hc : e.config.target_trials ≤ e.completed_trial_count
  · intro i j hstate _
    simp only [PvtEngine.schedule_next, if_pos hc] at hstate
    rcases hstate with h | h <;> exact absurd h (by simp)
  · intro i j hstate hij
    simp only [PvtEngine.schedule_next, if_neg hc] at hstate ⊢
    rcases hstate with h | h
    · simp only [PvtEngineState.Waiting.injEq] at h
      rcases Nat.eq_or_lt_of_le hij with hj | hj
      · rw [← hj, ← h, getD_concat_self]
        rfl
      · rw [getD_of_length_le]
        · rfl
        · simp only [List.length_append, List.length_singleton]
          omega
    · exact absurd h (by simp)

theorem getD_eq_of_get?_eq_some {α : Type} {l : List α} {i : ℕ} {a : α}
    (d : α) (h : l.get? i = some a) : l.getD i d = a := by
  rw [List.getD_eq_getElem?_getD, ← List.get?_eq_getElem?, h]
  rfl

theorem lt_length_of_get?_eq_some {α : Type} {l : List α} {i : ℕ} {a : α}
    (h : l.get? i = some a) : i < l.length := by
  by_contra hge
  push_neg at hge
  rw [get?_eq_none_of_le _ hge] at h
  exact absurd h (by simp)

theorem pvt_inv_start (e : PvtEngine) (h : PvtInv e) (now : ℚ) (draw : ℕ) :
    PvtInv (e.start now draw).1 := by
  cases hst : e.state with
  | Idle =>
      intro i j hstate hij
      simp only [PvtEngine.start, hst] at hstate ⊢
      rcases j with _ | j <;> rfl
  | Completed =>
      intro i j hstate hij
      simp only [PvtEngine.start, hst] at hstate ⊢
      rcases j with _ | j <;> rfl
  | Aborted =>
      intro i j hstate hij
      simp only [PvtEngine.start, hst] at hstate ⊢
      rcases j with _ | j <;> rfl
  | Waiting idx =>
      have hred : (e.start now draw).1 = e := by
        simp only [PvtEngine.start, hst]
      rw [hred]
      exact h
  | StimulusActive idx =>
      have hred : (e.start now draw).1 = e := by
        simp only [PvtEngine.start, hst]
      rw [hred]
      exact h

theorem pvt_inv_abort (e : PvtEngine) (now : ℚ) : PvtInv (e.abort now) := by
  intro i j hstate hij
  rcases hstate with hs | hs <;> exact absurd hs (by simp [PvtEngine.abort])

theorem pvt_inv_mark (e : PvtEngine) (h : PvtInv e) (ti : ℕ) (ts : ℚ) :
    PvtInv (e.mark_stimulus_on ti ts).1 := by
  cases hst : e.state with
  | Waiting idx =>
      by_cases hidx : idx = ti
      · subst hidx
        cases hrs : e.run_started_at with
        | none =>
            have hred : (e.mark_stimulus_on idx ts).1 = e := by
              simp only [PvtEngine.mark_stimulus_on, hst, hrs,
                eq_self_iff_true, if_true]
            rw [hred]
            exact h
        | some run_start =>
            cases hget : e.trials.get? idx with
            | none =>
                have hred : (e.mark_stimulus_on idx ts).1 = e := by
                  simp only [PvtEngine.mark_stimulus_on, hst, hrs, hget,
                    eq_self_iff_true, if_true]
                rw [hred]
                exact h
            | some trial =>
                intro i j hstate hij
                simp only [PvtEngine.mark_stimulus_on, hst, hrs, hget,
                  eq_self_iff_true, if_true] at hstate ⊢
                have htr : e.trials.getD idx pvtTrialDflt = trial :=
                  getD_eq_of_get?_eq_some _ hget
                have hi : i = idx := by
                  rcases hstate with hs | hs
                  · exact absurd hs (by simp)
                  · simp only [PvtEngineState.StimulusActive.injEq] at hs
                    omega
                by_cases hj : j = idx
                · subst hj
                  rw [getD_set_self _ _ _ (lt_length_of_get?_eq_some hget)]
                  have hp := h j j (Or.inl hst) (le_refl j)
                  rw [htr] at hp
                  exact hp
                · rw [getD_set_of_ne _ _ _ (fun hc => hj hc.symm)]
                  exact h idx j (Or.inl hst) (by omega)
      · have hred : (e.mark_stimulus_on ti ts).1 = e := by
          simp only [PvtEngine.mark_stimulus_on, hst, if_neg hidx]
        rw [hred]
        exact h
  | Idle =>
      have hred : (e.mark_stimulus_on ti ts).1 = e := by
        simp only [PvtEngine.mark_stimulus_on, hst]
      rw [hred]
      exact h
  | StimulusActive idx =>
      have hred : (e.mark_stimulus_on ti ts).1 = e := by
        simp only [PvtEngine.mark_stimulus_on, hst]
      rw [hred]
      exact h
  | Completed =>
      have hred : (e.mark_stimulus_on ti ts).1 = e := by
        simp only [PvtEngine.mark_stimulus_on, hst]
      rw [hred]
      exact h
  | Aborted =>
      have hred : (e.mark_stimulus_on ti ts).1 = e := by
        simp only [PvtEngine.mark_stimulus_on, hst]
      rw [hred]
      exact h

theorem pvt_inv_response (e : PvtEngine) (h : PvtInv e) (draw : ℕ)
    (now ts : ℚ) : PvtInv (e.register_response draw now ts).1 := by
  cases hst : e.state with
  | StimulusActive idx =>
      cases hget : e.trials.get? idx with
      | none =>
          have hred : (e.register_response draw now ts).1 = e := by
            simp only [PvtEngine.register_response, hst, hget]
          rw [hred]
          exact h
      | some trial =>
          cases hon : trial.stimulus_onset with
          | none =>
              have hred : (e.register_response draw now ts).1 = e := by
                simp only [PvtEngine.register_response, hst, hget, hon]
              rw [hred]
              exact h
          | some onset =>
              simp only [PvtEngine.register_response, hst, hget, hon]
              exact schedule_next_inv _ draw now
  | Waiting idx =>
      cases hget : e.trials.get? idx with
      | none =>
          simp only [PvtEngine.register_response, hst, hget]
          exact schedule_next_inv _ draw now
      | some trial =>
          simp only [PvtEngine.register_response, hst, hget]
          exact schedule_next_inv _ draw now
  | Idle =>
      have hred : (e.register_response draw now ts).1 = e := by
        simp only [PvtEngine.register_response, hst]
      rw [hred]
      exact h
  | Completed =>
      have hred : (e.register_response draw now ts).1 = e := by
        simp only [PvtEngine.register_response, hst]
      rw [hred]
      exact h
  | Aborted =>
      have hred : (e.register_response draw now ts).1 = e := by
        simp only [PvtEngine.register_response, hst]
      rw [hred]
      exact h

theorem pvt_inv_timeout (e : PvtEngine) (h : PvtInv e) (ti draw : ℕ)
    (now : ℚ) : PvtInv (e.register_timeout ti draw now).1 := by
  cases hst : e.state with
  | StimulusActive idx =>
      by_cases hidx : idx = ti
      · subst hidx
        cases hget : e.trials.get? idx with
        | none =>
            simp only [PvtEngine.register_timeout, hst, hget,
              eq_self_iff_true, if_true]
            exact schedule_next_inv _ draw now
        | some trial =>
            simp only [PvtEngine.register_timeout, hst, hget,
              eq_self_iff_true, if_true]
            exact schedule_next_inv _ draw now
      · have hred : (e.register_timeout ti draw now).1 = e := by
          simp only [PvtEngine.register_timeout, hst, if_neg hidx]
        rw [hred]
        exact h
  | Waiting idx =>
      have hred : (e.register_timeout ti draw now).1 = e := by
        simp only [PvtEngine.register_timeout, hst]
      rw [hred]
      exact h
  | Idle =>
      have hred : (e.register_timeout ti draw now).1 = e := by
        simp only [PvtEngine.register_timeout, hst]
      rw [hred]
      exact h
  | Completed =>
      have hred : (e.register_timeout ti draw now).1 = e := by
        simp only [PvtEngine.register_timeout, hst]
      rw [hred]
      exact h
  | Aborted =>
      have hred : (e.register_timeout ti draw now).1 = e := by
        simp only [PvtEngine.register_timeout, hst]
      rw [hred]
      exact h

theorem pvt_step_inv (op : PvtOp) (e : PvtEngine) (h : PvtInv e) :
    PvtInv (op.applyE e) := by
  cases op with
  | start now draw => exact pvt_inv_start e h now draw
  | mark_stimulus_on ti ts => exact pvt_inv_mark e h ti ts
  | register_response draw now ts => exact pvt_inv_response e h draw now ts
  | register_timeout ti draw now => exact pvt_inv_timeout e h ti draw now
  | abort now => exact pvt_inv_abort e now

theorem pvt_reachable_inv (e : PvtEngine) (h : PvtReachable e) : PvtInv e := by
  induction h with
  | init cfg =>
      intro i j hstate hij
      rcases hstate with hs | hs <;> exact absurd hs (by simp [PvtEngine.new])
  | step op hr ih => exact pvt_step_inv op _ ih

theorem pvt_preserve (e : PvtEngine) (hinv : PvtInv e) (op : PvtOp)
    (hop : op.isStart = false) (j : ℕ)
    (hnp : (e.trials.getD j pvtTrialDflt).outcome ≠ .Pending) :
    ((op.applyE e).trials.getD j pvtTrialDflt).outcome =
      (e.trials.getD j pvtTrialDflt).outcome := by
  have hjlt : j < e.trials.length := by
    by_contra hge
    push_neg at hge
    rw [getD_of_length_le _ _ hge] at hnp
    exact hnp rfl
  cases op with
  | start now draw => exact absurd hop (by simp [PvtOp.isStart])
  | abort now => rfl
  | mark_stimulus_on ti ts =>
      cases hst : e.state with
      | Waiting idx =>
          by_cases hidx : idx = ti
          · subst hidx
            cases hrs : e.run_started_at with
            | none =>
                simp only [PvtOp.applyE, PvtEngine.mark_stimulus_on, hst,
                  hrs, eq_self_iff_true, if_true]
            | some run_start =>
                cases hget : e.trials.get? idx with
                | none =>
                    simp only [PvtOp.applyE, PvtEngine.mark_stimulus_on, hst,
                      hrs, hget, eq_self_iff_true, if_true]
                | some trial =>
                    simp only [PvtOp.applyE, PvtEngine.mark_stimulus_on, hst,
                      hrs, hget, eq_self_iff_true, if_true]
                    by_cases hj : j = idx
                    · subst hj
                      rw [getD_set_self _ _ _ hjlt,
                        getD_eq_of_get?_eq_some pvtTrialDflt hget]
                    · rw [getD_set_of_ne _ _ _ (fun hc => hj hc.symm)]
          · simp only [PvtOp.applyE, PvtEngine.mark_stimulus_on, hst,
              if_neg hidx]
      | Idle => simp only [PvtOp.applyE, PvtEngine.mark_stimulus_on, hst]
      | StimulusActive idx =>
          simp only [PvtOp.applyE, PvtEngine.mark_stimulus_on, hst]
      | Completed => simp only [PvtOp.applyE, PvtEngine.mark_stimulus_on, hst]
      | Aborted => simp only [PvtOp.applyE, PvtEngine.mark_stimulus_on, hst]
  | register_response draw now ts =>
      cases hst : e.state with
      | StimulusActive idx =>
          cases hget : e.trials.get? idx with
          | none =>
              simp only [PvtOp.applyE, PvtEngine.register_response, hst, hget]
          | some trial =>
              cases hon : trial.stimulus_onset with
              | none =>
                  simp only [PvtOp.applyE, PvtEngine.register_response, hst,
                    hget, hon]
              | some onset =>
                  have hpend :
                      (e.trials.getD idx pvtTrialDflt).outcome = .Pending :=
                    hinv idx idx (Or.inr hst) (le_refl idx)
                  have hj : j ≠ idx := by
                    intro hc
                    rw [hc] at hnp
                    exact hnp hpend
                  simp only [PvtOp.applyE, PvtEngine.register_response, hst,
                    hget, hon]
                  rw [schedule_next_getD]
                  · exact congrArg PvtTrial.outcome
                      (getD_set_of_ne _ _ _ (fun hc => hj hc.symm))
                  · simpa using hjlt
      | Waiting idx =>
          have hpend : (e.trials.getD idx pvtTrialDflt).outcome = .Pending :=
            hinv idx idx (Or.inl hst) (le_refl idx)
          have hj : j ≠ idx := by
            intro hc
            rw [hc] at hnp
            exact hnp hpend
          cases hget : e.trials.get? idx with
          | none =>
              simp only [PvtOp.applyE, PvtEngine.register_response, hst, hget]
              rw [schedule_next_getD]
              · simpa using hjlt
          | some trial =>
              simp only [PvtOp.applyE, PvtEngine.register_response, hst, hget]
              rw [schedule_next_getD]
              · exact congrArg PvtTrial.outcome
                  (getD_set_of_ne _ _ _ (fun hc => hj hc.symm))
              · simpa using hjlt
      | Idle => simp only [PvtOp.applyE, PvtEngine.register_response, hst]
      | Completed =>
          simp only [PvtOp.applyE, PvtEngine.register_response, hst]
      | Aborted => simp only [PvtOp.applyE, PvtEngine.register_response, hst]
  | register_timeout ti draw now =>
      cases hst : e.state with
      | StimulusActive idx =>
          by_cases hidx : idx = ti
          · subst hidx
            have hpend :
                (e.trials.getD idx pvtTrialDflt).outcome = .Pending :=
              hinv idx idx (Or.inr hst) (le_refl idx)
            have hj : j ≠ idx := by
              intro hc
              rw [hc] at hnp
              exact hnp hpend
            cases hget : e.trials.get? idx with
            | none =>
                simp only [PvtOp.applyE, PvtEngine.register_timeout, hst,
                  hget, eq_self_iff_true, if_true]
                rw [schedule_next_getD]
                · simpa using hjlt
            | some trial =>
                simp only [PvtOp.applyE, PvtEngine.register_timeout, hst,
                  hget, eq_self_iff_true, if_true]
                rw [schedule_next_getD]
                · exact congrArg PvtTrial.outcome
                    (getD_set_of_ne _ _ _ (fun hc => hj hc.symm))
                · simpa using hjlt
          · simp only [PvtOp.applyE, PvtEngine.register_timeout, hst,
              if_neg hidx]
      | Waiting idx =>
          simp only [PvtOp.applyE, PvtEngine.register_timeout, hst]
      | Idle => simp only [PvtOp.applyE, PvtEngine.register_timeout, hst]
      | Completed =>
          simp only [PvtOp.applyE, PvtEngine.register_timeout, hst]
      | Aborted => simp only [PvtOp.applyE, PvtEngine.register_timeout, hst]

theorem generate_trials_pending (fuel : ℕ) (s : ℕ → ℕ) (cfg : NBackConfig)
    (mode : RunMode) (T : List NBackTrial)
    (h : generate_trials fuel s cfg mode = some T) :
    ∀ j, (T.getD j nbackTrialDflt).outcome = .Pending := by
  intro j
  rw [generate_trials] at h
  by_cases hlen0 : run_length cfg mode = 0
  · rw [if_pos hlen0] at h
    simp only [Option.some.injEq] at h
    rw [← h]
    simp [List.getD_eq_getElem?_getD]
    rfl
  · rw [if_neg hlen0] at h
    cases hinit : initial_letters fuel s (run_length cfg mode) with
    | none => rw [hinit] at h; simp at h
    | some p =>
        obtain ⟨init, j1⟩ := p
        rw [hinit] at h
        simp only [Option.bind_eq_bind, Option.some_bind] at h
        cases hfl : fill_loop fuel s
            (chosen_targets s j1 (run_length cfg mode) cfg.target_ratio)
            (run_length cfg mode - 2) 2
            (j1 + (run_length cfg mode - 2 - 1)) init with
        | none => rw [hfl] at h; simp at h
        | some letters =>
            rw [hfl] at h
            simp only [Option.some_bind, Option.some.injEq] at h
            rw [← h]
            by_cases hj : j < letters.length
            · rw [chars_to_trials_getD letters hj]
              rfl
            · push_neg at hj
              rw [getD_of_length_le]
              · rfl
              · rw [chars_to_trials_length]
                exact hj

theorem nback_inv_start (e : NBackEngine) (h : NBackInv e) (fuel : ℕ)
    (s : ℕ → ℕ) (mode : RunMode) :
    NBackInv ((NBackOp.start fuel s mode).applyE e) := by
  cases hst : e.state with
  | Waiting m i =>
      have hred : (NBackOp.start fuel s mode).applyE e = e := by
        simp only [NBackOp.applyE, NBackEngine.start, hst]
      rw [hred]
      exact h
  | StimulusActive m i =>
      have hred : (NBackOp.start fuel s mode).applyE e = e := by
        simp only [NBackOp.applyE, NBackEngine.start, hst]
      rw [hred]
      exact h
  | Idle =>
      cases hgen : generate_trials fuel s e.config mode with
      | none =>
          have hred : (NBackOp.start fuel s mode).applyE e = e := by
            simp only [NBackOp.applyE, NBackEngine.start, hst, hgen,
              Option.map_none']
          rw [hred]
          exact h
      | some T =>
          intro mode' i
          constructor
          · intro hw j hij
            simp only [NBackOp.applyE, NBackEngine.start, hst, hgen,
              Option.map_some'] at hw ⊢
            exact generate_trials_pending fuel s e.config mode T hgen j
          · intro hsa
            simp only [NBackOp.applyE, NBackEngine.start, hst, hgen,
              Option.map_some'] at hsa
            exact absurd hsa (by simp)
  | Completed m =>
      cases hgen : generate_trials fuel s e.config mode with
      | none =>
          have hred : (NBackOp.start fuel s mode).applyE e = e := by
            simp only [NBackOp.applyE, NBackEngine.start, hst, hgen,
              Option.map_none']
          rw [hred]
          exact h
      | some T =>
          intro mode' i
          constructor
          · intro hw j hij
            simp only [NBackOp.applyE, NBackEngine.start, hst, hgen,
              Option.map_some'] at hw ⊢
            exact generate_trials_pending fuel s e.config mode T hgen j
          · intro hsa
            simp only [NBackOp.applyE, NBackEngine.start, hst, hgen,
              Option.map_some'] at hsa
            exact absurd hsa (by simp)
  | Aborted =>
      cases hgen : generate_trials fuel s e.config mode with
      | none =>
          have hred : (NBackOp.start fuel s mode).applyE e = e := by
            simp only [NBackOp.applyE, NBackEngine.start, hst, hgen,
              Option.map_none']
          rw [hred]
          exact h
      | some T =>
          intro mode' i
          constructor
          · intro hw j hij
            simp only [NBackOp.applyE, NBackEngine.start, hst, hgen,
              Option.map_some'] at hw ⊢
            exact generate_trials_pending fuel s e.config mode T hgen j
          · intro hsa
            simp only [NBackOp.applyE, NBackEngine.start, hst, hgen,
              Option.map_some'] at hsa
            exact absurd hsa (by simp)

theorem nback_inv_abort (e : NBackEngine) : NBackInv e.abort := by
  intro mode i
  constructor
  · intro hw
    exact absurd hw (by simp [NBackEngine.abort])
  · intro hsa
    exact absurd hsa (by simp [NBackEngine.abort])

theorem nback_inv_mark (e : NBackEngine) (h : NBackInv e) (ti : ℕ)
    (ts : ℚ) : NBackInv (e.mark_stimulus_on ti ts).1 := by
  cases hst : e.state with
  | Waiting m idx =>
      by_cases hidx : idx = ti
      · subst hidx
        cases hget : e.trials.get? idx with
        | none =>
            have hred : (e.mark_stimulus_on idx ts).1 = e := by
              simp only [NBackEngine.mark_stimulus_on, hst, hget,
                eq_self_iff_true, if_true]
            rw [hred]
            exact h
        | some trial =>
            have hpend := (h m idx).1 hst
            intro mode' i
            constructor
            · intro hw
              simp only [NBackEngine.mark_stimulus_on, hst, hget,
                eq_self_iff_true, if_true] at hw
              exact absurd hw (by simp)
            · intro hsa
              simp only [NBackEngine.mark_stimulus_on, hst, hget,
                eq_self_iff_true, if_true] at hsa ⊢
              simp only [NBackEngineState.StimulusActive.injEq] at hsa
              constructor
              · intro j hj
                rw [getD_set_of_ne _ _ _ (by omega)]
                exact hpend j (by omega)
              · left
                rw [← hsa.2, getD_set_self _ _ _
                  (lt_length_of_get?_eq_some hget)]
                have := hpend idx (le_refl idx)
                rw [getD_eq_of_get?_eq_some nbackTrialDflt hget] at this
                exact this
      · have hred : (e.mark_stimulus_on ti ts).1 = e := by
          simp only [NBackEngine.mark_stimulus_on, hst, if_neg hidx]
        rw [hred]
        exact h
  | Idle =>
      have hred : (e.mark_stimulus_on ti ts).1 = e := by
        simp only [NBackEngine.mark_stimulus_on, hst]
      rw [hred]
      exact h
  | StimulusActive m idx =>
      have hred : (e.mark_stimulus_on ti ts).1 = e := by
        simp only [NBackEngine.mark_stimulus_on, hst]
      rw [hred]
      exact h
  | Completed m =>
      have hred : (e.mark_stimulus_on ti ts).1 = e := by
        simp only [NBackEngine.mark_stimulus_on, hst]
      rw [hred]
      exact h
  | Aborted =>
      have hred : (e.mark_stimulus_on ti ts).1 = e := by
        simp only [NBackEngine.mark_stimulus_on, hst]
      rw [hred]
      exact h

theorem nback_inv_response (e : NBackEngine) (h : NBackInv e) (ts : ℚ) :
    NBackInv (e.register_response ts).1 := by
  cases hst : e.state with
  | StimulusActive m idx =>
      cases hget : e.trials.get? idx with
      | none =>
          have hred : (e.register_response ts).1 = e := by
            simp only [NBackEngine.register_response, hst, hget]
          rw [hred]
          exact h
      | some trial =>
          cases hresp : trial.response with
          | some r =>
              have hred : (e.register_response ts).1 = e := by
                simp only [NBackEngine.register_response, hst, hget, hresp]
              rw [hred]
              exact h
          | none =>
              cases hpres : trial.presented_at with
              | none =>
                  have hred : (e.register_response ts).1 = e := by
                    simp only [NBackEngine.register_response, hst, hget,
                      hresp, hpres]
                  rw [hred]
                  exact h
              | some onset =>
                  have hup := (h m idx).2 hst
                  intro mode' i
                  constructor
                  · intro hw
                    simp only [NBackEngine.register_response, hst, hget,
                      hresp, hpres] at hw
                    exact absurd hw (by simp [hst])
                  · intro hsa
                    simp only [NBackEngine.register_response, hst, hget,
                      hresp, hpres] at hsa ⊢
                    simp only [NBackEngineState.StimulusActive.injEq] at hsa
                    constructor
                    · intro j hj
                      rw [getD_set_of_ne _ _ _ (by omega)]
                      exact hup.1 j (by omega)
                    · right
                      rw [← hsa.2, getD_set_self _ _ _
                        (lt_length_of_get?_eq_some hget)]
                      rfl
  | Waiting m idx =>
      have hred : (e.register_response ts).1 = e := by
        simp only [NBackEngine.register_response, hst]
      rw [hred]
      exact h
  | Idle =>
      have hred : (e.register_response ts).1 = e := by
        simp only [NBackEngine.register_response, hst]
      rw [hred]
      exact h
  | Completed m =>
      have hred : (e.register_response ts).1 = e := by
        simp only [NBackEngine.register_response, hst]
      rw [hred]
      exact h
  | Aborted =>
      have hred : (e.register_response ts).1 = e := by
        simp only [NBackEngine.register_response, hst]
      rw [hred]
      exact h

/-- `advance_body` leaves every position other than the retired index
untouched. -/
theorem nback_advance_body_trials (e : NBackEngine) (m : RunMode) (idx j : ℕ)
    (hj : j ≠ idx) :
    ((e.advance_body m idx).1).trials.getD j nbackTrialDflt =
      e.trials.getD j nbackTrialDflt := by
  rw [NBackEngine.advance_body.eq_def]
  simp only
  cases hget : e.trials.get? idx with
  | none =>
      split
      · cases m <;> rfl
      · rfl
  | some trial =>
      by_cases hp : trial.outcome = NBackOutcome.Pending
      · simp only [if_pos hp]
        split
        · cases m <;>
            exact getD_set_of_ne _ _ _ (fun hc => hj hc.symm)
        · exact getD_set_of_ne _ _ _ (fun hc => hj hc.symm)
      · simp only [if_neg hp]
        split
        · cases m <;> rfl
        · rfl

/-- `advance_body` does not rewrite an already-retired trial. -/
theorem nback_advance_body_retired (e : NBackEngine) (m : RunMode) (idx : ℕ)
    (trial : NBackTrial) (hget : e.trials.get? idx = some trial)
    (hnp : ¬trial.outcome = NBackOutcome.Pending) :
    ((e.advance_body m idx).1).trials = e.trials := by
  rw [NBackEngine.advance_body.eq_def]
  simp only [hget, if_neg hnp]
  split
  · cases m <;> rfl
  · rfl

theorem nback_advance_body_state (e : NBackEngine) (m : RunMode) (idx : ℕ) :
    ((e.advance_body m idx).1).state = NBackEngineState.Completed m ∨
    ((e.advance_body m idx).1).state =
      NBackEngineState.Waiting m (idx + 1) := by
  rw [NBackEngine.advance_body.eq_def]
  simp only
  split
  · cases m <;> exact Or.inl rfl
  · exact Or.inr rfl

theorem nback_inv_advance_body (e : NBackEngine) (m : RunMode) (idx : ℕ)
    (hpend : ∀ j, idx < j →
      (e.trials.getD j nbackTrialDflt).outcome = NBackOutcome.Pending) :
    NBackInv (e.advance_body m idx).1 := by
  intro mode' i
  rcases nback_advance_body_state e m idx with hs | hs
  · constructor
    · intro hw
      rw [hs] at hw
      exact absurd hw (by simp)
    · intro hsa
      rw [hs] at hsa
      exact absurd hsa (by simp)
  · constructor
    · intro hw j hij
      rw [hs] at hw
      simp only [NBackEngineState.Waiting.injEq] at hw
      rw [nback_advance_body_trials e m idx j (by omega)]
      exact hpend j (by omega)
    · intro hsa
      rw [hs] at hsa
      exact absurd hsa (by simp)

theorem nback_inv_advance (e : NBackEngine) (h : NBackInv e) (ti : ℕ) :
    NBackInv (e.advance ti).1 := by
  cases hst : e.state with
  | Waiting m idx =>
      by_cases hidx : idx = ti
      · subst hidx
        have hred : (e.advance idx).1 = (e.advance_body m idx).1 := by
          simp only [NBackEngine.advance, hst, eq_self_iff_true, if_true]
        rw [hred]
        exact nback_inv_advance_body e m idx
          (fun j hj => (h m idx).1 hst j (by omega))
      · have hred : (e.advance ti).1 = e := by
          simp only [NBackEngine.advance, hst, if_neg hidx]
        rw [hred]
        exact h
  | StimulusActive m idx =>
      by_cases hidx : idx = ti
      · subst hidx
        have hred : (e.advance idx).1 = (e.advance_body m idx).1 := by
          simp only [NBackEngine.advance, hst, eq_self_iff_true, if_true]
        rw [hred]
        exact nback_inv_advance_body e m idx
          (fun j hj => ((h m idx).2 hst).1 j hj)
      · have hred : (e.advance ti).1 = e := by
          simp only [NBackEngine.advance, hst, if_neg hidx]
        rw [hred]
        exact h
  | Idle =>
      have hred : (e.advance ti).1 = e := by
        simp only [NBackEngine.advance, hst]
      rw [hred]
      exact h
  | Completed m =>
      have hred : (e.advance ti).1 = e := by
        simp only [NBackEngine.advance, hst]
      rw [hred]
      exact h
  | Aborted =>
      have hred : (e.advance ti).1 = e := by
        simp only [NBackEngine.advance, hst]
      rw [hred]
      exact h

theorem nback_step_inv (op : NBackOp) (e : NBackEngine) (h : NBackInv e) :
    NBackInv (op.applyE e) := by
  cases op with
  | start fuel s mode => exact nback_inv_start e h fuel s mode
  | mark_stimulus_on ti ts => exact nback_inv_mark e h ti ts
  | register_response ts => exact nback_inv_response e h ts
  | advance ti => exact nback_inv_advance e h ti
  | abort => exact nback_inv_abort e

theorem nback_reachable_inv (e : NBackEngine) (h : NBackReachable e) :
    NBackInv e := by
  induction h with
  | init cfg =>
      intro mode i
      constructor
      · intro hw
        exact absurd hw (by simp [NBackEngine.new])
      · intro hsa
        exact absurd hsa (by simp [NBackEngine.new])
  | step op hr ih => exact nback_step_inv op _ ih

theorem nback_preserve (e : NBackEngine) (hinv : NBackInv e) (op : NBackOp)
    (hop : op.isStart = false) (j : ℕ)
    (hnp : (e.trials.getD j nbackTrialDflt).outcome ≠ .Pending) :
    ((op.applyE e).trials.getD j nbackTrialDflt).outcome =
      (e.trials.getD j nbackTrialDflt).outcome := by
  have hjlt : j < e.trials.length := by
    by_contra hge
    push_neg at hge
    rw [getD_of_length_le _ _ hge] at hnp
    exact hnp rfl
  cases op with
  | start fuel s mode => exact absurd hop (by simp [NBackOp.isStart])
  | abort => rfl
  | mark_stimulus_on ti ts =>
      cases hst : e.state with
      | Waiting m idx =>
          by_cases hidx : idx = ti
          · subst hidx
            cases hget : e.trials.get? idx with
            | none =>
                simp only [NBackOp.applyE, NBackEngine.mark_stimulus_on, hst,
                  hget, eq_self_iff_true, if_true]
            | some trial =>
                simp only [NBackOp.applyE, NBackEngine.mark_stimulus_on, hst,
                  hget, eq_self_iff_true, if_true]
                by_cases hj : j = idx
                · subst hj
                  rw [getD_set_self _ _ _ hjlt,
                    getD_eq_of_get?_eq_some nbackTrialDflt hget]
                · rw [getD_set_of_ne _ _ _ (fun hc => hj hc.symm)]
          · simp only [NBackOp.applyE, NBackEngine.mark_stimulus_on, hst,
              if_neg hidx]
      | Idle =>
          simp only [NBackOp.applyE, NBackEngine.mark_stimulus_on, hst]
      | StimulusActive m idx =>
          simp only [NBackOp.applyE, NBackEngine.mark_stimulus_on, hst]
      | Completed m =>
          simp only [NBackOp.applyE, NBackEngine.mark_stimulus_on, hst]
      | Aborted =>
          simp only [NBackOp.applyE, NBackEngine.mark_stimulus_on, hst]
  | register_response ts =>
      cases hst : e.state with
      | StimulusActive m idx =>
          cases hget : e.trials.get? idx with
          | none =>
              simp only [NBackOp.applyE, NBackEngine.register_response, hst,
                hget]
          | some trial =>
              cases hresp : trial.response with
              | some r =>
                  simp only [NBackOp.applyE, NBackEngine.register_response,
                    hst, hget, hresp]
              | none =>
                  cases hpres : trial.presented_at with
                  | none =>
                      simp only [NBackOp.applyE,
                        NBackEngine.register_response, hst, hget, hresp,
                        hpres]
                  | some onset =>
                      have htr :
                          e.trials.getD idx nbackTrialDflt = trial :=
                        getD_eq_of_get?_eq_some _ hget
                      have hpend :
                          (e.trials.getD idx nbackTrialDflt).outcome =
                            .Pending := by
                        rcases ((hinv m idx).2 hst).2 with hp | hp
                        · exact hp
                        · rw [htr, hresp] at hp
                          exact absurd hp (by simp)
                      have hj : j ≠ idx := by
                        intro hc
                        rw [hc] at hnp
                        exact hnp hpend
                      simp only [NBackOp.applyE,
                        NBackEngine.register_response, hst, hget, hresp,
                        hpres]
                      rw [getD_set_of_ne _ _ _ (fun hc => hj hc.symm)]
      | Waiting m idx =>
          simp only [NBackOp.applyE, NBackEngine.register_response, hst]
      | Idle =>
          simp only [NBackOp.applyE, NBackEngine.register_response, hst]
      | Completed m =>
          simp only [NBackOp.applyE, NBackEngine.register_response, hst]
      | Aborted =>
          simp only [NBackOp.applyE, NBackEngine.register_response, hst]
  | advance ti =>
      cases hst : e.state with
      | Waiting m idx =>
          by_cases hidx : idx = ti
          · subst hidx
            have hred : (NBackOp.advance idx).applyE e =
                (e.advance_body m idx).1 := by
              simp only [NBackOp.applyE, NBackEngine.advance, hst,
                eq_self_iff_true, if_true]
            rw [hred]
            by_cases hj : j = idx
            · subst hj
              cases hget : e.trials.get? j with
              | none =>
                  have hsome := get?_eq_some_getD e.trials nbackTrialDflt hjlt
                  rw [hget] at hsome
                  exact absurd hsome (by simp)
              | some trial =>
                  have htr : e.trials.getD j nbackTrialDflt = trial :=
                    getD_eq_of_get?_eq_some _ hget
                  have hnp2 : ¬trial.outcome = NBackOutcome.Pending := by
                    rw [← htr]
                    exact hnp
                  rw [nback_advance_body_retired e m j trial hget hnp2]
            · rw [nback_advance_body_trials e m idx j hj]
          · simp only [NBackOp.applyE, NBackEngine.advance, hst,
              if_neg hidx]
      | StimulusActive m idx =>
          by_cases hidx : idx = ti
          · subst hidx
            have hred : (NBackOp.advance idx).applyE e =
                (e.advance_body m idx).1 := by
              simp only [NBackOp.applyE, NBackEngine.advance, hst,
                eq_self_iff_true, if_true]
            rw [hred]
            by_cases hj : j = idx
            · subst hj
              cases hget : e.trials.get? j with
              | none =>
                  have hsome := get?_eq_some_getD e.trials nbackTrialDflt hjlt
                  rw [hget] at hsome
                  exact absurd hsome (by simp)
              | some trial =>
                  have htr : e.trials.getD j nbackTrialDflt = trial :=
                    getD_eq_of_get?_eq_some _ hget
                  have hnp2 : ¬trial.outcome = NBackOutcome.Pending := by
                    rw [← htr]
                    exact hnp
                  rw [nback_advance_body_retired e m j trial hget hnp2]
            · rw [nback_advance_body_trials e m idx j hj]
          · simp only [NBackOp.applyE, NBackEngine.advance, hst,
              if_neg hidx]
      | Idle => simp only [NBackOp.applyE, NBackEngine.advance, hst]
      | Completed m => simp only [NBackOp.applyE, NBackEngine.advance, hst]
      | Aborted => simp only [NBackOp.applyE, NBackEngine.advance, hst]

/-- C3: in both engines, once a trial's outcome has left `Pending`, no later
non-`start` operation of the same run ever changes that trial's outcome
(`start` begins a new run and rebuilds the trial list). -/
theorem outcome_retirement_permanent :
    (∀ (e : PvtEngine), PvtReachable e → ∀ (op : PvtOp),
      op.isStart = false → ∀ j,
      (e.trials.getD j pvtTrialDflt).outcome ≠ .Pending →
      ((op.applyE e).trials.getD j pvtTrialDflt).outcome =
        (e.trials.getD j pvtTrialDflt).outcome) ∧
    (∀ (e : NBackEngine), NBackReachable e → ∀ (op : NBackOp),
      op.isStart = false → ∀ j,
      (e.trials.getD j nbackTrialDflt).outcome ≠ .Pending →
      ((op.applyE e).trials.getD j nbackTrialDflt).outcome =
        (e.trials.getD j nbackTrialDflt).outcome) :=
  ⟨fun e hr op hop j hnp =>
    pvt_preserve e (pvt_reachable_inv e hr) op hop j hnp,
   fun e hr op hop j hnp =>
    nback_preserve e (nback_reachable_inv e hr) op hop j hnp⟩

theorem outcome_retirement_permanent_witness :
    PvtOp.isStart (PvtOp.mark_stimulus_on 1 30) = false ∧
    (samplePvtRetired.trials.getD 0 pvtTrialDflt).outcome ≠ .Pending ∧
    (((PvtOp.mark_stimulus_on 1 30).applyE samplePvtRetired).trials.getD 0
        pvtTrialDflt).outcome =
      (samplePvtRetired.trials.getD 0 pvtTrialDflt).outcome ∧
    NBackOp.isStart (NBackOp.mark_stimulus_on 1 40) = false ∧
    (sampleNBackRetired.trials.getD 0 nbackTrialDflt).outcome ≠ .Pending ∧
    (((NBackOp.mark_stimulus_on 1 40).applyE sampleNBackRetired).trials.getD
        0 nbackTrialDflt).outcome =
      (sampleNBackRetired.trials.getD 0 nbackTrialDflt).outcome := by
  have hrp : PvtReachable samplePvtRetired :=
    PvtReachable.step (PvtOp.register_timeout 0 0 20)
      (PvtReachable.step (PvtOp.mark_stimulus_on 0 10)
        (PvtReachable.step (PvtOp.start 0 0)
          (PvtReachable.init samplePvtConfig)))
  have hrn : NBackReachable sampleNBackRetired :=
    NBackReachable.step (NBackOp.advance 0)
      (NBackReachable.step (NBackOp.start 8 (fun n => n) .Practice)
        (NBackReachable.init sampleNBackConfig))
  have hg : generate_trials 8 (fun n => n) sampleNBackConfig .Practice =
      some sampleNBackTrials := by
    rw [generate_trials]
    rw [if_neg (by decide)]
    rw [show initial_letters 8 (fun n => n)
      (run_length sampleNBackConfig .Practice) =
      some (['B', 'C', ' ', ' '], 2) from rfl]
    simp only [Option.bind_eq_bind, Option.some_bind]
    rw [show chosen_targets (fun n => n) 2
        (run_length sampleNBackConfig .Practice)
        sampleNBackConfig.target_ratio = [3] from by
      show chosen_targets (fun n => n) 2 4 (1 / 2) = [3]
      rw [chosen_targets]
      have hq : target_quota 4 (1 / 2) = 1 := by
        have hr : rustRound (((4 - 2 : ℕ) : ℚ) * (1 / 2)) = 1 := by
          rw [rustRound, if_pos (by norm_num)]
          norm_num
        rw [target_quota]
        simp only [hr]
        decide
      rw [hq]
      decide]
    decide
  have hs : (NBackOp.start 8 (fun n => n) RunMode.Practice).applyE
      (NBackEngine.new sampleNBackConfig) = sampleNBackStarted := by
    simp only [NBackOp.applyE, NBackEngine.start, NBackEngine.new]
    rw [hg]
    simp only [Option.map_some']
    rw [show ((0 + 1) % U64_MOD : ℕ) = 1 from by norm_num [U64_MOD]]
    rfl
  have hout : (sampleNBackRetired.trials.getD 0 nbackTrialDflt).outcome =
      .CorrectRejection := by
    rw [show sampleNBackRetired =
      (NBackOp.advance 0).applyE sampleNBackStarted from by
        rw [sampleNBackRetired, hs]]
    decide
  have hnpp : (samplePvtRetired.trials.getD 0 pvtTrialDflt).outcome ≠
      PvtOutcome.Pending := by decide
  have hnpn : (sampleNBackRetired.trials.getD 0 nbackTrialDflt).outcome ≠
      NBackOutcome.Pending := by
    rw [hout]
    simp
  refine ⟨rfl, hnpp, ?_, rfl, hnpn, ?_⟩
  · exact outcome_retirement_permanent.1 samplePvtRetired hrp
      (PvtOp.mark_stimulus_on 1 30) rfl 0 hnpp
  · exact outcome_retirement_permanent.2 sampleNBackRetired hrn
      (NBackOp.mark_stimulus_on 1 40) rfl 0 hnpn
